import Mathlib

/-!
CHIP-8 interpreter: shallow embedding and verification.

The embedding follows the two C sources.

* `chip8-implementation.c`: the opcode record `CHIP8FULLOPCODE`, the machine
  object `CHIP8OBJECT`, `decode_helper`, `chip8_execute_instruction`, the
  sixteen `nibble_*` handlers and their sub-handlers.
* `sdl-basecode-derivation.c`: the static arrays `mem`, `framebuffer`,
  `buttons`, the two timers, `chip8_mem_read`, `chip8_mem_write`,
  `chip8_register_read`, `chip8_register_write`, `chip8_clear_frame`,
  `chip8_draw_sprite`.

Conventions.

* Machine integers are natural numbers; a store into a `uint8_t` or
  `uint16_t` object is written `u8` / `u16` (reduction modulo `2^8`, `2^16`),
  and a store of a possibly negative `int` is `u8_of_int` / `u16_of_int`.
* C arrays are functions `Nat → Nat`; `arr_set` is the array store.
* Everything the C standard leaves undefined is a failure of the model
  (`none`): a call through a null function pointer, a dereference of
  `stack_pointer` outside `stack[0..15]`, a framebuffer access outside
  `framebuffer[0..2047]`.  A loop that would run past its iteration budget is
  `none` as well, so a result `some _` always is a terminated run.
-/

namespace Chip8

/-! ## Machine integers and arrays -/

/-- Conversion to `uint8_t`. -/
def u8 (n : Nat) : Nat := n % 256

/-- Conversion to `uint16_t`. -/
def u16 (n : Nat) : Nat := n % 65536

/-- Conversion of a C `int` to `uint8_t`. -/
def u8_of_int (z : Int) : Nat := (z % 256).toNat

/-- Conversion of a C `int` to `uint16_t`. -/
def u16_of_int (z : Int) : Nat := (z % 65536).toNat

/-- Array store `a[i] = v`. -/
def arr_set (a : Nat → Nat) (i v : Nat) : Nat → Nat :=
  fun k => if k = i then v else a k

/-! ## `sdl-basecode-derivation.c`: constants -/

def CHIP8_REG_DELAY : Nat := 0x10
def CHIP8_REG_SOUND : Nat := 0x11
def PIXEL_SET : Nat := 0xffffffff
def MEMORY_SIZE : Nat := 4096
def MEMORY_MASK : Nat := MEMORY_SIZE - 1

/-! ## Data model -/

/-- The record `CHIP8FULLOPCODE`. -/
structure CHIP8FULLOPCODE where
  unmodified : Nat
  high_nibble : Nat
  NNN : Nat
  NN : Nat
  N : Nat
  X : Nat
  Y : Nat

/-- The whole machine: the fields of the global `chip8` (`CHIP8OBJECT`; its
table `opcode_ptr` is the constant `opcode_ptr` below, as filled in by
`chip8_init`), the static objects of `sdl-basecode-derivation.c`, and the
sequence of values the C library `rand()` is going to return.
`stack_pointer` is the offset `chip8.stack_pointer - chip8.stack`. -/
structure Machine where
  stack : Nat → Nat
  V : Nat → Nat
  I : Nat
  stack_pointer : Nat
  program_counter : Nat
  opcode : CHIP8FULLOPCODE
  mem : Nat → Nat
  framebuffer : Nat → Nat
  buttons : Nat → Nat
  delay_timer : Nat
  sound_timer : Nat
  rand_values : Nat → Nat
  rand_calls : Nat

/-! ## `sdl-basecode-derivation.c`: memory, registers, framebuffer -/

/-- `chip8_mem_read`: the parameter is a `uint16_t`. -/
def chip8_mem_read (mem : Nat → Nat) (address : Nat) : Nat :=
  mem (u16 address &&& MEMORY_MASK)

/-- `chip8_mem_write`. -/
def chip8_mem_write (mem : Nat → Nat) (address value : Nat) : Nat → Nat :=
  arr_set mem (u16 address &&& MEMORY_MASK) (u8 value)

/-- `chip8_register_read`. -/
def chip8_register_read (s : Machine) (regis : Nat) : Nat :=
  if regis < CHIP8_REG_DELAY then s.buttons regis
  else if regis = CHIP8_REG_DELAY then s.delay_timer
  else if regis = CHIP8_REG_SOUND then s.sound_timer
  else 0

/-- `chip8_register_write`. -/
def chip8_register_write (s : Machine) (regis value : Nat) : Machine :=
  if regis = CHIP8_REG_DELAY then { s with delay_timer := u8 value }
  else if regis = CHIP8_REG_SOUND then { s with sound_timer := u8 value }
  else s

/-- `chip8_clear_frame`: `memset` of the 2048 pixels. -/
def chip8_clear_frame (framebuffer : Nat → Nat) : Nat → Nat :=
  fun k => if k < 64 * 32 then 0 else framebuffer k

/-- Inner loop of `chip8_draw_sprite`:
`for (j = 0; (j < 8) && (x + j) < 64; ++j)`, entered at `j` with the pair
(framebuffer, collision). -/
def draw_sprite_cols (x bits ptr : Nat) :
    Nat → Nat → (Nat → Nat) × Nat → Option ((Nat → Nat) × Nat)
  | 0, j, st => if j < 8 ∧ x + j < 64 then none else some st
  | fuel + 1, j, st =>
    if j < 8 ∧ x + j < 64 then
      if bits &&& (0x80 >>> j) ≠ 0 then
        if ptr + j < 64 * 32 then
          let fb := arr_set st.1 (ptr + j) (st.1 (ptr + j) ^^^ PIXEL_SET)
          let collision := if fb (ptr + j) = 0 then 1 else st.2
          draw_sprite_cols x bits ptr fuel (u8 (j + 1)) (fb, collision)
        else none
      else draw_sprite_cols x bits ptr fuel (u8 (j + 1)) st
    else some st

/-- Outer loop of `chip8_draw_sprite`:
`for (i = 0; i < height; ++i, ptr += 64)`, entered at `i`. -/
def draw_sprite_rows (mem : Nat → Nat) (address x height : Nat) :
    Nat → Nat → Nat → (Nat → Nat) × Nat → Option ((Nat → Nat) × Nat)
  | 0, i, _, st => if i < height then none else some st
  | fuel + 1, i, ptr, st =>
    if i < height then
      let bits := chip8_mem_read mem (address + i)
      match draw_sprite_cols x bits ptr 8 0 st with
      | some st1 => draw_sprite_rows mem address x height fuel (u8 (i + 1)) (ptr + 64) st1
      | none => none
    else some st

/-- `chip8_draw_sprite`: returns the new framebuffer and the collision flag. -/
def chip8_draw_sprite (mem framebuffer : Nat → Nat) (address x y height : Nat) :
    Option ((Nat → Nat) × Nat) :=
  let y := y &&& 0x1F
  let x := x &&& 0x3F
  let ptr := (y <<< 6) + x
  let height := if height + y > 32 then u8 (32 - y) else height
  draw_sprite_rows mem address x height 256 0 ptr (framebuffer, 0)

/-! ## `chip8-implementation.c`: decoder and handlers -/

/-- `decode_helper`.  Every right-hand side is masked to the width of the
field it is stored in, so the stores do not truncate. -/
def decode_helper (opcode : CHIP8FULLOPCODE) : CHIP8FULLOPCODE :=
  { unmodified := opcode.unmodified
    high_nibble := (opcode.unmodified >>> 12) &&& 0xF
    NNN := opcode.unmodified &&& 0xFFF
    NN := opcode.unmodified &&& 0xFF
    N := opcode.unmodified &&& 0xF
    X := (opcode.unmodified >>> 8) &&& 0xF
    Y := (opcode.unmodified >>> 4) &&& 0xF }

/-- Handler of 00E0. -/
def opcode0_E0 (s : Machine) : Option Machine :=
  some { s with framebuffer := chip8_clear_frame s.framebuffer }

/-- Handler of 00EE: `stack_pointer--; program_counter = *stack_pointer`. -/
def opcode0_EE (s : Machine) : Option Machine :=
  if 1 ≤ s.stack_pointer ∧ s.stack_pointer - 1 < 16 then
    some { s with stack_pointer := s.stack_pointer - 1
                  program_counter := s.stack (s.stack_pointer - 1) }
  else none

/-- Handler of 1NNN. -/
def nibble_1 (s : Machine) : Option Machine :=
  some { s with program_counter := s.opcode.NNN }

/-- Handler of 2NNN: `*stack_pointer = program_counter; program_counter = NNN;
stack_pointer++`. -/
def nibble_2 (s : Machine) : Option Machine :=
  if s.stack_pointer < 16 then
    some { s with stack := arr_set s.stack s.stack_pointer s.program_counter
                  program_counter := s.opcode.NNN
                  stack_pointer := s.stack_pointer + 1 }
  else none

/-- Handler of 3XNN. -/
def nibble_3 (s : Machine) : Option Machine :=
  if s.V s.opcode.X = s.opcode.NN then
    some { s with program_counter := u16 (s.program_counter + 2) }
  else some s

/-- Handler of 4XNN. -/
def nibble_4 (s : Machine) : Option Machine :=
  if s.V s.opcode.X ≠ s.opcode.NN then
    some { s with program_counter := u16 (s.program_counter + 2) }
  else some s

/-- Handler of 5XY0. -/
def nibble_5 (s : Machine) : Option Machine :=
  if s.V s.opcode.X = s.V s.opcode.Y then
    some { s with program_counter := u16 (s.program_counter + 2) }
  else some s

/-- Handler of 6XNN. -/
def nibble_6 (s : Machine) : Option Machine :=
  some { s with V := arr_set s.V s.opcode.X s.opcode.NN }

/-- Handler of 7XNN. -/
def nibble_7 (s : Machine) : Option Machine :=
  some { s with V := arr_set s.V s.opcode.X (u8 (s.V s.opcode.X + s.opcode.NN)) }

/-- Handler of 8XY0. -/
def opcode8_0 (s : Machine) : Option Machine :=
  some { s with V := arr_set s.V s.opcode.X (s.V s.opcode.Y) }

/-- Handler of 8XY1. -/
def opcode8_1 (s : Machine) : Option Machine :=
  some { s with V := arr_set s.V s.opcode.X (u8 (s.V s.opcode.X ||| s.V s.opcode.Y)) }

/-- Handler of 8XY2. -/
def opcode8_2 (s : Machine) : Option Machine :=
  some { s with V := arr_set s.V s.opcode.X (u8 (s.V s.opcode.X &&& s.V s.opcode.Y)) }

/-- Handler of 8XY3. -/
def opcode8_3 (s : Machine) : Option Machine :=
  some { s with V := arr_set s.V s.opcode.X (u8 (s.V s.opcode.X ^^^ s.V s.opcode.Y)) }

/-- Handler of 8XY4: the flag is stored first, the sum is formed afterwards from the
registers as they are then. -/
def opcode8_4 (s : Machine) : Option Machine :=
  let V1 := if s.V s.opcode.X + s.V s.opcode.Y > 0xFF then arr_set s.V 0xF 1
            else arr_set s.V 0xF 0
  some { s with V := arr_set V1 s.opcode.X (u8 (V1 s.opcode.X + V1 s.opcode.Y)) }

/-- Handler of 8XY5. -/
def opcode8_5 (s : Machine) : Option Machine :=
  let V1 := if s.V s.opcode.X ≥ s.V s.opcode.Y then arr_set s.V 0xF 1
            else arr_set s.V 0xF 0
  some { s with V := arr_set V1 s.opcode.X
                       (u8_of_int ((V1 s.opcode.X : Int) - (V1 s.opcode.Y : Int))) }

/-- Handler of 8XY6. -/
def opcode8_6 (s : Machine) : Option Machine :=
  let V1 := arr_set s.V 0xF (u8 (s.V s.opcode.X &&& 0x1))
  some { s with V := arr_set V1 s.opcode.X (u8 (V1 s.opcode.X >>> 1)) }

/-- Handler of 8XY7. -/
def opcode8_7 (s : Machine) : Option Machine :=
  let V1 := if s.V s.opcode.Y ≥ s.V s.opcode.X then arr_set s.V 0xF 1
            else arr_set s.V 0xF 0
  some { s with V := arr_set V1 s.opcode.X
                       (u8_of_int ((V1 s.opcode.Y : Int) - (V1 s.opcode.X : Int))) }

/-- Handler of 8XYE. -/
def opcode8_E (s : Machine) : Option Machine :=
  let V1 := if s.V s.opcode.X &&& 0x80 = 0x80 then arr_set s.V 0xF 1
            else arr_set s.V 0xF 0
  some { s with V := arr_set V1 s.opcode.X (u8 (V1 s.opcode.X <<< 1)) }

/-- Handler of 9XY0. -/
def nibble_9 (s : Machine) : Option Machine :=
  if s.V s.opcode.X ≠ s.V s.opcode.Y then
    some { s with program_counter := u16 (s.program_counter + 2) }
  else some s

/-- Handler of ANNN. -/
def nibble_A (s : Machine) : Option Machine :=
  some { s with I := s.opcode.NNN }

/-- Handler of BNNN. -/
def nibble_B (s : Machine) : Option Machine :=
  some { s with program_counter := u16 (s.opcode.NNN + s.V 0x0) }

/-- Handler of CXNN: consumes one value of `rand()`. -/
def nibble_C (s : Machine) : Option Machine :=
  some { s with V := arr_set s.V s.opcode.X
                       (u8 ((s.rand_values s.rand_calls % 256) &&& s.opcode.NN))
                rand_calls := s.rand_calls + 1 }

/-- Handler of DXYN. -/
def nibble_D (s : Machine) : Option Machine :=
  match chip8_draw_sprite s.mem s.framebuffer s.I (s.V s.opcode.X) (s.V s.opcode.Y)
      s.opcode.N with
  | some (fb, collision) =>
    some { s with framebuffer := fb, V := arr_set s.V 0xF (u8 collision) }
  | none => none

/-- Handler of EXA1. -/
def opcodeE_A1 (s : Machine) : Option Machine :=
  if chip8_register_read s (s.V s.opcode.X &&& 0xF) = 0 then
    some { s with program_counter := u16 (s.program_counter + 2) }
  else some s

/-- Handler of EX9E. -/
def opcodeE_9E (s : Machine) : Option Machine :=
  if chip8_register_read s (s.V s.opcode.X &&& 0xF) ≠ 0 then
    some { s with program_counter := u16 (s.program_counter + 2) }
  else some s

/-- Handler of FX07. -/
def opcodeF_07 (s : Machine) : Option Machine :=
  some { s with V := arr_set s.V s.opcode.X (chip8_register_read s 0x10) }

/-- The `for (uint8_t i = 0x0; i < 0x10; i++)` loop of `opcodeF_0A`, entered
at `i`; `s` is the state after `program_counter -= 2`. -/
def opcodeF_0A_loop (s : Machine) : Nat → Nat → Option Machine
  | 0, i => if i < 0x10 then none else some s
  | fuel + 1, i =>
    if i < 0x10 then
      if chip8_register_read s i ≠ 0 then
        some { s with V := arr_set s.V s.opcode.X (chip8_register_read s i)
                      program_counter := u16 (s.program_counter + 2) }
      else opcodeF_0A_loop s fuel (u8 (i + 1))
    else some s

/-- Handler of FX0A. -/
def opcodeF_0A (s : Machine) : Option Machine :=
  opcodeF_0A_loop
    { s with program_counter := u16_of_int ((s.program_counter : Int) - 2) } 16 0

/-- Handler of FX15. -/
def opcodeF_15 (s : Machine) : Option Machine :=
  some (chip8_register_write s 0x10 (s.V s.opcode.X))

/-- Handler of FX18. -/
def opcodeF_18 (s : Machine) : Option Machine :=
  some (chip8_register_write s 0x11 (s.V s.opcode.X))

/-- Handler of FX1E. -/
def opcodeF_1E (s : Machine) : Option Machine :=
  some { s with I := u16 (s.I + u16 (s.V s.opcode.X)) }

/-- Handler of FX29. -/
def opcodeF_29 (s : Machine) : Option Machine :=
  some { s with I := u16 (5 * (s.V s.opcode.X &&& 0xF)) }

/-- `set_BCD`. -/
def set_BCD (s : Machine) : Machine :=
  let m1 := chip8_mem_write s.mem s.I (s.V s.opcode.X / 100)
  let m2 := chip8_mem_write m1 (s.I + 1) ((s.V s.opcode.X / 10) % 10)
  let m3 := chip8_mem_write m2 (s.I + 2) (s.V s.opcode.X % 10)
  { s with mem := m3 }

/-- Handler of FX33. -/
def opcodeF_33 (s : Machine) : Option Machine :=
  some (set_BCD s)

/-- The `for (uint8_t i = 0x0; i <= X; i++)` loop of `opcodeF_55`. -/
def opcodeF_55_loop (s : Machine) : Nat → Nat → Option Machine
  | 0, i => if i ≤ s.opcode.X then none else some s
  | fuel + 1, i =>
    if i ≤ s.opcode.X then
      opcodeF_55_loop { s with mem := chip8_mem_write s.mem (s.I + i) (s.V i) } fuel
        (u8 (i + 1))
    else some s

/-- Handler of FX55. -/
def opcodeF_55 (s : Machine) : Option Machine :=
  opcodeF_55_loop s 256 0

/-- The `for (uint8_t i = 0x0; i <= X; i++)` loop of `opcodeF_65`. -/
def opcodeF_65_loop (s : Machine) : Nat → Nat → Option Machine
  | 0, i => if i ≤ s.opcode.X then none else some s
  | fuel + 1, i =>
    if i ≤ s.opcode.X then
      opcodeF_65_loop { s with V := arr_set s.V i (chip8_mem_read s.mem (s.I + i)) } fuel
        (u8 (i + 1))
    else some s

/-- Handler of FX65. -/
def opcodeF_65 (s : Machine) : Option Machine :=
  opcodeF_65_loop s 256 0

/-- The static table `opcode0` of `nibble_0`; an entry without initialiser is
a null pointer. -/
def opcode0 : Nat → Option (Machine → Option Machine)
  | 0x0 => some opcode0_E0
  | 0xE => some opcode0_EE
  | _ => none

/-- The static table `opcode8` of `nibble_8`. -/
def opcode8 : Nat → Option (Machine → Option Machine)
  | 0x0 => some opcode8_0
  | 0x1 => some opcode8_1
  | 0x2 => some opcode8_2
  | 0x3 => some opcode8_3
  | 0x4 => some opcode8_4
  | 0x5 => some opcode8_5
  | 0x6 => some opcode8_6
  | 0x7 => some opcode8_7
  | 0xE => some opcode8_E
  | _ => none

/-- The static table `opcodeE` of `nibble_E`. -/
def opcodeE : Nat → Option (Machine → Option Machine)
  | 0x1 => some opcodeE_A1
  | 0xE => some opcodeE_9E
  | _ => none

/-- The static table `opcodeF` of `nibble_F`. -/
def opcodeF : Nat → Option (Machine → Option Machine)
  | 0x7 => some opcodeF_07
  | 0xA => some opcodeF_0A
  | 0x15 => some opcodeF_15
  | 0x18 => some opcodeF_18
  | 0x1E => some opcodeF_1E
  | 0x29 => some opcodeF_29
  | 0x33 => some opcodeF_33
  | 0x55 => some opcodeF_55
  | 0x65 => some opcodeF_65
  | _ => none

/-- Call through an entry of a function-pointer table: a null entry has no
defined behaviour. -/
def call_ptr (entry : Option (Machine → Option Machine)) (s : Machine) : Option Machine :=
  match entry with
  | some f => f s
  | none => none

/-- `nibble_0`; the `else` branch is the `printf("Out of range")`. -/
def nibble_0 (s : Machine) : Option Machine :=
  if s.opcode.N ≥ 0x0 ∧ s.opcode.N ≤ 0xF then call_ptr (opcode0 s.opcode.N) s
  else some s

/-- `nibble_8`. -/
def nibble_8 (s : Machine) : Option Machine :=
  if s.opcode.N ≥ 0x0 ∧ s.opcode.N ≤ 0xF then call_ptr (opcode8 s.opcode.N) s
  else some s

/-- `nibble_E`. -/
def nibble_E (s : Machine) : Option Machine :=
  if s.opcode.N ≥ 0x0 ∧ s.opcode.N ≤ 0xF then call_ptr (opcodeE s.opcode.N) s
  else some s

/-- `nibble_F`. -/
def nibble_F (s : Machine) : Option Machine :=
  if s.opcode.NN ≥ 0x0 ∧ s.opcode.NN ≤ 0xFF then call_ptr (opcodeF s.opcode.NN) s
  else some s

/-- The table `chip8.opcode_ptr` as `chip8_init` fills it. -/
def opcode_ptr : Nat → Option (Machine → Option Machine)
  | 0x0 => some nibble_0
  | 0x1 => some nibble_1
  | 0x2 => some nibble_2
  | 0x3 => some nibble_3
  | 0x4 => some nibble_4
  | 0x5 => some nibble_5
  | 0x6 => some nibble_6
  | 0x7 => some nibble_7
  | 0x8 => some nibble_8
  | 0x9 => some nibble_9
  | 0xA => some nibble_A
  | 0xB => some nibble_B
  | 0xC => some nibble_C
  | 0xD => some nibble_D
  | 0xE => some nibble_E
  | 0xF => some nibble_F
  | _ => none

/-- The instruction word `chip8_execute_instruction` fetches:
`(chip8_mem_read(pc) << 8) | chip8_mem_read(pc + 1)`, stored in a
`uint16_t`. -/
def fetch (mem : Nat → Nat) (program_counter : Nat) : Nat :=
  u16 ((chip8_mem_read mem program_counter <<< 8) |||
        chip8_mem_read mem (program_counter + 1))

/-- `chip8_execute_instruction`. -/
def chip8_execute_instruction (s : Machine) : Option Machine :=
  let s1 := { s with opcode := { s.opcode with unmodified := fetch s.mem s.program_counter } }
  let s2 := { s1 with program_counter := u16 (s1.program_counter + 2) }
  let s3 := { s2 with opcode := decode_helper s2.opcode }
  if s3.opcode.high_nibble ≥ 0x0 ∧ s3.opcode.high_nibble ≤ 0xF then
    call_ptr (opcode_ptr s3.opcode.high_nibble) s3
  else some s3

/-- Result of `n` consecutive calls of `chip8_execute_instruction`. -/
def run : Nat → Machine → Option Machine
  | 0, s => some s
  | n + 1, s =>
    match chip8_execute_instruction s with
    | some s1 => run n s1
    | none => none

/-- The state a handler is entered with: the fetched word decoded into
`opcode`, `program_counter` already advanced. -/
def dispatch_state (s : Machine) : Machine :=
  { s with
    opcode := decode_helper { s.opcode with unmodified := fetch s.mem s.program_counter }
    program_counter := u16 (s.program_counter + 2) }

/-! ## Reset and program load -/

/-- The table `font`. -/
def font : List Nat :=
  [0xF0, 0x90, 0x90, 0x90, 0xF0,
   0x20, 0x60, 0x20, 0x20, 0x70,
   0xF0, 0x10, 0xF0, 0x80, 0xF0,
   0xF0, 0x10, 0xF0, 0x10, 0xF0,
   0x90, 0x90, 0xF0, 0x10, 0x10,
   0xF0, 0x80, 0xF0, 0x10, 0xF0,
   0xF0, 0x80, 0xF0, 0x90, 0xF0,
   0xF0, 0x10, 0x20, 0x40, 0x40,
   0xF0, 0x90, 0xF0, 0x90, 0xF0,
   0xF0, 0x90, 0xF0, 0x10, 0xF0,
   0xF0, 0x90, 0xF0, 0x90, 0x90,
   0xE0, 0x90, 0xE0, 0x90, 0xE0,
   0xF0, 0x80, 0x80, 0x80, 0xF0,
   0xE0, 0x90, 0x90, 0x90, 0xE0,
   0xF0, 0x80, 0xF0, 0x80, 0xF0,
   0xF0, 0x80, 0xF0, 0x80, 0x80]

/-- `chip8_mem_clear`: `memset(framebuffer, 0, MEMORY_SIZE)` zeroes the first
`MEMORY_SIZE` bytes of `framebuffer`, that is `MEMORY_SIZE / 4` of its
four-byte pixels; `mem` is not touched. -/
def chip8_mem_clear (framebuffer : Nat → Nat) : Nat → Nat :=
  fun k => if k < MEMORY_SIZE / 4 then 0 else framebuffer k

/-- `chip8_load_rom`, with the file system as a parameter: `file` is `none`
when `fopen` fails and `some image` when the file holds the bytes `image`,
which `fread` then delivers in full.  The result is the machine and the
returned `int`. -/
def chip8_load_rom (file : Option (List Nat)) (s : Machine) : Machine × Int :=
  let s1 := { s with framebuffer := chip8_mem_clear s.framebuffer }
  match file with
  | none => (s1, -1)
  | some image =>
    let size := image.length
    if size > MEMORY_SIZE - 0x200 then (s1, -1)
    else
      let mem1 : Nat → Nat := fun k =>
        if 0x200 ≤ k ∧ k < 0x200 + size then image.getD (k - 0x200) 0 else s1.mem k
      let mem2 : Nat → Nat := fun k => if k < 80 then font.getD k 0 else mem1 k
      let buttons1 : Nat → Nat := fun k => if k < 16 then 0 else s1.buttons k
      ({ s1 with mem := mem2, buttons := buttons1,
                 framebuffer := chip8_clear_frame s1.framebuffer }, 0)

/-- `chip8_mem_reset`; `file` is the file `romfn` names. -/
def chip8_mem_reset (file : Option (List Nat)) (s : Machine) : Machine :=
  let s1 := { s with mem := fun k => if k < 4096 then 0 else s.mem k }
  let s2 := (chip8_load_rom file s1).1
  { s2 with delay_timer := 0, sound_timer := 0 }

/-- `chip8_init`; the table `opcode_ptr` it fills is the constant
`opcode_ptr`. -/
def chip8_init (s : Machine) : Machine :=
  { s with program_counter := 0x200, I := 0x200, stack_pointer := 0 }

/-- `chip8_reset`. -/
def chip8_reset (file : Option (List Nat)) (s : Machine) : Machine :=
  let s1 := chip8_mem_reset file s
  { s1 with program_counter := 0x200
            I := 0x200
            stack_pointer := 0
            V := fun k => if k < 16 then 0 else s1.V k
            stack := fun k => if k < 16 then 0 else s1.stack k }

/-- The objects of static storage duration before `main` runs: all zero. -/
def static_init : Machine :=
  { stack := fun _ => 0
    V := fun _ => 0
    I := 0
    stack_pointer := 0
    program_counter := 0
    opcode := ⟨0, 0, 0, 0, 0, 0, 0⟩
    mem := fun _ => 0
    framebuffer := fun _ => 0
    buttons := fun _ => 0
    delay_timer := 0
    sound_timer := 0
    rand_values := fun _ => 0
    rand_calls := 0 }

/-- The machine `main` starts the frame loop with: `chip8_load_rom`,
`chip8_init`, `chip8_reset`. -/
def startup (file : Option (List Nat)) : Machine :=
  chip8_reset file (chip8_init (chip8_load_rom file static_init).1)

/-! ## Pixels a sprite toggles -/

/-- Pixel index `q` is toggled by the inner loop of `chip8_draw_sprite` run
from column counter `j` on: `q = ptr + k` for a counter `k ≥ j` the loop
reaches whose bit `0x80 >> k` is set in `bits`. -/
def col_hit (x bits ptr j q : Nat) : Prop :=
  ptr + j ≤ q ∧ q - ptr < 8 ∧ x + (q - ptr) < 64 ∧ bits &&& (0x80 >>> (q - ptr)) ≠ 0

instance (x bits ptr j q : Nat) : Decidable (col_hit x bits ptr j q) := by
  unfold col_hit
  infer_instance

/-- Pixel index `q` is toggled by the outer loop of `chip8_draw_sprite` run
from row counter `i` on, for a sprite of `height` rows whose origin is row
`y`, column `x`. -/
def row_hit (mem : Nat → Nat) (address x y height i q : Nat) : Prop :=
  y + i ≤ q / 64 ∧ q / 64 < y + height ∧
    col_hit x (chip8_mem_read mem (address + (q / 64 - y))) (q / 64 * 64 + x) 0 q

instance (mem : Nat → Nat) (address x y height i q : Nat) :
    Decidable (row_hit mem address x y height i q) := by
  unfold row_hit
  infer_instance

/-- Pixel index `q` is toggled by `chip8_draw_sprite mem _ address x y height`:
the origin is wrapped and the height clipped as the function does. -/
def sprite_hit (mem : Nat → Nat) (address x y height q : Nat) : Prop :=
  row_hit mem address (x % 64) (y % 32) (min height (32 - y % 32)) 0 q

instance (mem : Nat → Nat) (address x y height q : Nat) :
    Decidable (sprite_hit mem address x y height q) := by
  unfold sprite_hit
  infer_instance

/-! ## Frame conditions -/

/-- A handler that, when it returns, leaves the stack pointer where it was. -/
def keeps_depth (f : Machine → Option Machine) : Prop :=
  ∀ s s1, f s = some s1 → s1.stack_pointer = s.stack_pointer

/-- Two machines agree on everything but memory, the decoded opcode record and
the `rand()` sequence. -/
def same_visible (s t : Machine) : Prop :=
  s.stack = t.stack ∧ s.V = t.V ∧ s.I = t.I ∧ s.stack_pointer = t.stack_pointer ∧
  s.program_counter = t.program_counter ∧ s.framebuffer = t.framebuffer ∧
  s.buttons = t.buttons ∧ s.delay_timer = t.delay_timer ∧ s.sound_timer = t.sound_timer

/-- Two steps have the same outcome: both fail, or both return machines that
agree on everything visible. -/
def same_outcome (a b : Option Machine) : Prop :=
  match a, b with
  | some x, some y => same_visible x y
  | none, none => True
  | _, _ => False

/-- A handler that, when it returns, leaves the framebuffer as it was. -/
def keeps_frame (f : Machine → Option Machine) : Prop :=
  ∀ s s1, f s = some s1 → s1.framebuffer = s.framebuffer

/-- Every one of the 2048 pixels of the framebuffer is 0 or `PIXEL_SET`. -/
def binary_frame (framebuffer : Nat → Nat) : Prop :=
  ∀ q, q < 64 * 32 → framebuffer q = 0 ∨ framebuffer q = PIXEL_SET

/-- Frame of a register instruction with target `VX` that may also write
`VF`: the step from `s` to `s1` leaves every other V register, `I`, the
stack, the stack pointer, memory, the framebuffer, the keypad, the timers and
the `rand()` sequence as they were, advances the program counter by 2 (16
bit), and leaves in `opcode` the decoded fetched word. -/
def register_step_frame (s s1 : Machine) (X : Nat) : Prop :=
  (∀ k, k ≠ X → k ≠ 0xF → s1.V k = s.V k) ∧
  s1.I = s.I ∧ s1.stack = s.stack ∧ s1.stack_pointer = s.stack_pointer ∧
  s1.program_counter = (s.program_counter + 2) % 65536 ∧
  s1.mem = s.mem ∧ s1.framebuffer = s.framebuffer ∧ s1.buttons = s.buttons ∧
  s1.delay_timer = s.delay_timer ∧ s1.sound_timer = s.sound_timer ∧
  s1.rand_values = s.rand_values ∧ s1.rand_calls = s.rand_calls ∧
  s1.opcode = decode_helper { s.opcode with unmodified := fetch s.mem s.program_counter }

/-- Frame of a control instruction: the step from `s` to `r` leaves the V
registers, `I`, the stack entries, memory, the keypad, the timers and the
`rand()` sequence as they were, and leaves in `opcode` the decoded fetched
word (the only place where the bits of the word stay visible). -/
def control_step_frame (s r : Machine) : Prop :=
  r.V = s.V ∧ r.I = s.I ∧ r.stack = s.stack ∧ r.mem = s.mem ∧ r.buttons = s.buttons ∧
  r.delay_timer = s.delay_timer ∧ r.sound_timer = s.sound_timer ∧
  r.rand_values = s.rand_values ∧ r.rand_calls = s.rand_calls ∧
  r.opcode = decode_helper { s.opcode with unmodified := fetch s.mem s.program_counter }

/-! ## Concrete machines -/

/-- An array given by finitely many entries, zero elsewhere. -/
def arr_of (l : List (Nat × Nat)) : Nat → Nat :=
  fun k => (l.lookup k).getD 0

/-- A machine as `chip8_init` and a reset leave it, with memory `mem`, register
file `V` and keypad `buttons`. -/
def machine_of (mem V buttons : Nat → Nat) : Machine :=
  { stack := fun _ => 0
    V := V
    I := 0x200
    stack_pointer := 0
    program_counter := 0x200
    opcode := ⟨0, 0, 0, 0, 0, 0, 0⟩
    mem := mem
    framebuffer := fun _ => 0
    buttons := buttons
    delay_timer := 0
    sound_timer := 0
    rand_values := fun _ => 0
    rand_calls := 0 }

/-! ## Bit masks and the decoder -/

theorem and_0xF (n : Nat) : n &&& 0xF = n % 16 := Nat.and_pow_two_sub_one_eq_mod n 4

theorem and_0xFF (n : Nat) : n &&& 0xFF = n % 256 := Nat.and_pow_two_sub_one_eq_mod n 8

theorem and_0xFFF (n : Nat) : n &&& 0xFFF = n % 4096 := Nat.and_pow_two_sub_one_eq_mod n 12

theorem and_0x1F (n : Nat) : n &&& 0x1F = n % 32 := Nat.and_pow_two_sub_one_eq_mod n 5

theorem and_0x3F (n : Nat) : n &&& 0x3F = n % 64 := Nat.and_pow_two_sub_one_eq_mod n 6

theorem decode_high_nibble (o : CHIP8FULLOPCODE) :
    (decode_helper o).high_nibble = o.unmodified / 4096 % 16 := by
  simp [decode_helper, and_0xF, Nat.shiftRight_eq_div_pow]

theorem decode_NNN (o : CHIP8FULLOPCODE) : (decode_helper o).NNN = o.unmodified % 4096 := by
  simp [decode_helper, and_0xFFF]

theorem decode_NN (o : CHIP8FULLOPCODE) : (decode_helper o).NN = o.unmodified % 256 := by
  simp [decode_helper, and_0xFF]

theorem decode_N (o : CHIP8FULLOPCODE) : (decode_helper o).N = o.unmodified % 16 := by
  simp [decode_helper, and_0xF]

theorem decode_X (o : CHIP8FULLOPCODE) : (decode_helper o).X = o.unmodified / 256 % 16 := by
  simp [decode_helper, and_0xF, Nat.shiftRight_eq_div_pow]

theorem decode_Y (o : CHIP8FULLOPCODE) : (decode_helper o).Y = o.unmodified / 16 % 16 := by
  simp [decode_helper, and_0xF, Nat.shiftRight_eq_div_pow]

/-- The guard of `chip8_execute_instruction` always holds: the handler of the
high nibble is called on `dispatch_state s`. -/
theorem exec_eq_dispatch (s : Machine) :
    chip8_execute_instruction s
      = call_ptr (opcode_ptr (fetch s.mem s.program_counter / 4096 % 16)) (dispatch_state s) := by
  have h : (decode_helper { s.opcode with unmodified := fetch s.mem s.program_counter }).high_nibble
      = fetch s.mem s.program_counter / 4096 % 16 := decode_high_nibble _
  have hlt : fetch s.mem s.program_counter / 4096 % 16 ≤ 15 := by omega
  simp only [chip8_execute_instruction, dispatch_state, h]
  simp [hlt]

/-! ## C1: the decoder -/

/-- C1: for every 16-bit word `w`, `decode_helper` yields
`high_nibble = w >> 12`, `NNN = w & 0xFFF`, `NN = w & 0xFF`, `N = w & 0xF`,
`X = (w >> 8) & 0xF`, `Y = (w >> 4) & 0xF`; it is a total function, the
result depends on `w` only (not on the previous contents of the record) and
decoding again changes nothing. -/
theorem decode_helper_fields (o : CHIP8FULLOPCODE) (hw : o.unmodified < 65536) :
    (decode_helper o).unmodified = o.unmodified ∧
    (decode_helper o).high_nibble = o.unmodified >>> 12 ∧
    (decode_helper o).NNN = o.unmodified &&& 0xFFF ∧
    (decode_helper o).NN = o.unmodified &&& 0xFF ∧
    (decode_helper o).N = o.unmodified &&& 0xF ∧
    (decode_helper o).X = (o.unmodified >>> 8) &&& 0xF ∧
    (decode_helper o).Y = (o.unmodified >>> 4) &&& 0xF ∧
    (∀ o2 : CHIP8FULLOPCODE, o2.unmodified = o.unmodified →
      decode_helper o2 = decode_helper o) ∧
    decode_helper (decode_helper o) = decode_helper o := by
  refine ⟨rfl, ?_, rfl, rfl, rfl, rfl, rfl, ?_, rfl⟩
  · rw [decode_high_nibble, Nat.shiftRight_eq_div_pow]
    have : o.unmodified / 2 ^ 12 < 16 := by
      rw [Nat.div_lt_iff_lt_mul (by norm_num)]; omega
    exact Nat.mod_eq_of_lt this
  · intro o2 h
    simp [decode_helper, h]

theorem decode_helper_fields_witness :
    (⟨0xD123, 0, 0, 0, 0, 0, 0⟩ : CHIP8FULLOPCODE).unmodified < 65536 ∧
    (decode_helper ⟨0xD123, 0, 0, 0, 0, 0, 0⟩).high_nibble = 0xD ∧
    (decode_helper ⟨0xD123, 0, 0, 0, 0, 0, 0⟩).NNN = 0x123 ∧
    (decode_helper ⟨0xD123, 0, 0, 0, 0, 0, 0⟩).X = 1 ∧
    (decode_helper ⟨0xD123, 0, 0, 0, 0, 0, 0⟩).Y = 2 :=
  have h := decode_helper_fields ⟨0xD123, 0, 0, 0, 0, 0, 0⟩ (by decide)
  ⟨by decide, h.2.1, h.2.2.1, h.2.2.2.2.2.1, h.2.2.2.2.2.2.1⟩

/-! ## C2: selectors without a handler -/

/-- In each of the families 0, 8, E and F a selector whose table entry is null
makes the step call through that null pointer. -/
theorem null_entry_fails (s : Machine) :
    (fetch s.mem s.program_counter / 4096 % 16 = 0x0 →
      opcode0 (fetch s.mem s.program_counter % 16) = none →
      chip8_execute_instruction s = none) ∧
    (fetch s.mem s.program_counter / 4096 % 16 = 0x8 →
      opcode8 (fetch s.mem s.program_counter % 16) = none →
      chip8_execute_instruction s = none) ∧
    (fetch s.mem s.program_counter / 4096 % 16 = 0xE →
      opcodeE (fetch s.mem s.program_counter % 16) = none →
      chip8_execute_instruction s = none) ∧
    (fetch s.mem s.program_counter / 4096 % 16 = 0xF →
      opcodeF (fetch s.mem s.program_counter % 256) = none →
      chip8_execute_instruction s = none) := by
  have hN : (dispatch_state s).opcode.N = fetch s.mem s.program_counter % 16 := by
    simp only [dispatch_state, decode_N]
  have hNN : (dispatch_state s).opcode.NN = fetch s.mem s.program_counter % 256 := by
    simp only [dispatch_state, decode_NN]
  have h16 : fetch s.mem s.program_counter % 16 ≤ 15 := by omega
  have h256 : fetch s.mem s.program_counter % 256 ≤ 255 := by omega
  refine ⟨?_, ?_, ?_, ?_⟩ <;> intro hn hnull <;> rw [exec_eq_dispatch, hn]
  · simp [opcode_ptr, call_ptr, nibble_0, hN, hnull, h16]
  · simp [opcode_ptr, call_ptr, nibble_8, hN, hnull, h16]
  · simp [opcode_ptr, call_ptr, nibble_E, hN, hnull, h16]
  · simp [opcode_ptr, call_ptr, nibble_F, hNN, hnull, h256]

/-- C2 (evaluation at the failing inputs): with the word `0x0001`, `0x8128`
or `0xF1FF` at `program_counter`, `chip8_execute_instruction` calls through a
null entry of `opcode0`, `opcode8`, `opcodeF`; the call has no defined
result, the step does not complete. -/
theorem unhandled_selector_calls_null :
    fetch (arr_of [(0x200, 0x00), (0x201, 0x01)]) 0x200 = 0x0001 ∧
    chip8_execute_instruction
      (machine_of (arr_of [(0x200, 0x00), (0x201, 0x01)]) (fun _ => 0) (fun _ => 0)) = none ∧
    fetch (arr_of [(0x200, 0x81), (0x201, 0x28)]) 0x200 = 0x8128 ∧
    chip8_execute_instruction
      (machine_of (arr_of [(0x200, 0x81), (0x201, 0x28)]) (fun _ => 0) (fun _ => 0)) = none ∧
    fetch (arr_of [(0x200, 0xF1), (0x201, 0xFF)]) 0x200 = 0xF1FF ∧
    chip8_execute_instruction
      (machine_of (arr_of [(0x200, 0xF1), (0x201, 0xFF)]) (fun _ => 0) (fun _ => 0)) = none := by
  refine ⟨by decide, ?_, by decide, ?_, by decide, ?_⟩ <;> rfl

/-! ## C3: FX0A with a key pressed -/

/-- C3 (evaluation at the failing input): with `F30A` at `program_counter`
and key 5 the only pressed key (`buttons[5] = 1`), the step ends with
`V3 = 1`, the state of the key, not its index 5; `program_counter` is the old
value plus 2. -/
theorem fx0a_stores_key_state :
    fetch (arr_of [(0x200, 0xF3), (0x201, 0x0A)]) 0x200 = 0xF30A ∧
    (chip8_execute_instruction
      (machine_of (arr_of [(0x200, 0xF3), (0x201, 0x0A)]) (fun _ => 0) (arr_of [(5, 1)]))).map
      (fun s => (s.V 3, s.program_counter)) = some (1, 0x202) := by
  constructor <;> decide

/-! ## C4: FX0A with no key pressed -/

theorem opcodeF_0A_loop_idle (s : Machine) (hb : ∀ k, k < 16 → s.buttons k = 0) :
    ∀ fuel i, i ≤ 16 → 16 - i ≤ fuel → opcodeF_0A_loop s fuel i = some s := by
  intro fuel
  induction fuel with
  | zero =>
    intro i hi hf
    have : ¬ i < 16 := by omega
    simp [opcodeF_0A_loop, this]
  | succ fuel ih =>
    intro i hi hf
    by_cases h16 : i < 16
    · have hr : chip8_register_read s i = 0 := by
        simp [chip8_register_read, CHIP8_REG_DELAY, h16, hb i h16]
      have hu : u8 (i + 1) = i + 1 := by unfold u8; omega
      simp only [opcodeF_0A_loop, h16, hr, hu]
      simpa using ih (i + 1) (by omega) (by omega)
    · simp [opcodeF_0A_loop, h16]

theorem rewind_pc (pc : Nat) (h : pc < 65536) :
    u16_of_int ((u16 (pc + 2) : Int) - 2) = pc := by
  unfold u16_of_int u16
  omega

/-- One parked step: the result is the dispatch state with the program
counter put back. -/
theorem fx0a_idle_step (s : Machine) (X : Nat) (hX : X < 16)
    (hpc : s.program_counter < 65536)
    (hw : fetch s.mem s.program_counter = 0xF00A + 0x100 * X)
    (hb : ∀ k, k < 16 → s.buttons k = 0) :
    chip8_execute_instruction s
      = some { dispatch_state s with program_counter := s.program_counter } := by
  have hn : fetch s.mem s.program_counter / 4096 % 16 = 15 := by omega
  have hNN : (dispatch_state s).opcode.NN = 0x0A := by
    simp only [dispatch_state, decode_NN, hw]; omega
  rw [exec_eq_dispatch, hn]
  simp only [opcode_ptr, call_ptr, nibble_F, hNN, opcodeF, opcodeF_0A]
  have hpc2 : u16_of_int (((dispatch_state s).program_counter : Int) - 2) = s.program_counter :=
    rewind_pc s.program_counter hpc
  rw [hpc2]
  simp only [ge_iff_le, Nat.zero_le, true_and, Nat.reduceLeDiff, if_true]
  exact opcodeF_0A_loop_idle { dispatch_state s with program_counter := s.program_counter }
    hb 16 0 (by omega) (by omega)

/-- C4: when the word at `program_counter` (any 16-bit value) is FX0A and all
sixteen keypad states are 0, `chip8_execute_instruction` returns and leaves
`program_counter`, the V registers, `I`, the stack, the stack depth and memory
(as well as the framebuffer, keypad and timers) unchanged; so after any number
`n` of such steps the machine is still parked on the same instruction word. -/
theorem fx0a_no_key_parks (s : Machine) (X : Nat) (hX : X < 16)
    (hpc : s.program_counter < 65536)
    (hw : fetch s.mem s.program_counter = 0xF00A + 0x100 * X)
    (hb : ∀ k, k < 16 → s.buttons k = 0) :
    (∃ s1, chip8_execute_instruction s = some s1 ∧
      s1.program_counter = s.program_counter ∧ s1.V = s.V ∧ s1.I = s.I ∧
      s1.stack = s.stack ∧ s1.stack_pointer = s.stack_pointer ∧ s1.mem = s.mem ∧
      s1.framebuffer = s.framebuffer ∧ s1.buttons = s.buttons ∧
      s1.delay_timer = s.delay_timer ∧ s1.sound_timer = s.sound_timer) ∧
    ∀ n, ∃ sn, run n s = some sn ∧
      sn.program_counter = s.program_counter ∧ sn.V = s.V ∧ sn.I = s.I ∧
      sn.stack = s.stack ∧ sn.stack_pointer = s.stack_pointer ∧ sn.mem = s.mem ∧
      fetch sn.mem sn.program_counter = 0xF00A + 0x100 * X := by
  constructor
  · exact ⟨_, fx0a_idle_step s X hX hpc hw hb, rfl, rfl, rfl, rfl, rfl, rfl, rfl, rfl, rfl, rfl⟩
  · intro n
    induction n generalizing s with
    | zero => exact ⟨s, rfl, rfl, rfl, rfl, rfl, rfl, rfl, hw⟩
    | succ n ih =>
      obtain ⟨sn, hrun, h1, h2, h3, h4, h5, h6, h7⟩ :=
        ih { dispatch_state s with program_counter := s.program_counter } hpc hw hb
      refine ⟨sn, ?_, h1, h2, h3, h4, h5, h6, h7⟩
      simp only [run, fx0a_idle_step s X hX hpc hw hb]
      exact hrun

theorem fx0a_no_key_parks_witness :
    (∃ s1, chip8_execute_instruction
        (machine_of (arr_of [(0x200, 0xF3), (0x201, 0x0A)]) (fun _ => 0) (fun _ => 0)) = some s1 ∧
      s1.program_counter = 0x200) ∧
    ∃ sn, run 5 (machine_of (arr_of [(0x200, 0xF3), (0x201, 0x0A)]) (fun _ => 0) (fun _ => 0))
        = some sn ∧ sn.program_counter = 0x200 :=
  have h := fx0a_no_key_parks
    (machine_of (arr_of [(0x200, 0xF3), (0x201, 0x0A)]) (fun _ => 0) (fun _ => 0)) 3
    (by decide) (by decide) (by decide) (fun _ _ => rfl)
  ⟨h.1.imp fun _ hs => ⟨hs.1, hs.2.1⟩, (h.2 5).imp fun _ hs => ⟨hs.1, hs.2.1⟩⟩

/-! ## Dispatch of the families 7 and 8 -/

theorem dispatch_X (s : Machine) :
    (dispatch_state s).opcode.X = fetch s.mem s.program_counter / 256 % 16 := by
  simp only [dispatch_state, decode_X]

theorem dispatch_Y (s : Machine) :
    (dispatch_state s).opcode.Y = fetch s.mem s.program_counter / 16 % 16 := by
  simp only [dispatch_state, decode_Y]

theorem dispatch_N (s : Machine) :
    (dispatch_state s).opcode.N = fetch s.mem s.program_counter % 16 := by
  simp only [dispatch_state, decode_N]

theorem dispatch_NN (s : Machine) :
    (dispatch_state s).opcode.NN = fetch s.mem s.program_counter % 256 := by
  simp only [dispatch_state, decode_NN]

theorem dispatch_NNN (s : Machine) :
    (dispatch_state s).opcode.NNN = fetch s.mem s.program_counter % 4096 := by
  simp only [dispatch_state, decode_NNN]

theorem ite_arr_set (c : Prop) [Decidable c] (V : Nat → Nat) (i a b : Nat) :
    (if c then arr_set V i a else arr_set V i b) = arr_set V i (if c then a else b) := by
  split <;> rfl

/-- The word 8XYN reaches entry `N` of the table `opcode8`, with the selectors
`X` and `Y` decoded. -/
theorem exec_family_8 (s : Machine) (X Y N : Nat) (hX : X ≤ 15) (hY : Y ≤ 15) (hN : N ≤ 15)
    (hw : fetch s.mem s.program_counter = 0x8000 + 0x100 * X + 0x10 * Y + N) :
    chip8_execute_instruction s = call_ptr (opcode8 N) (dispatch_state s) ∧
    (dispatch_state s).opcode.X = X ∧ (dispatch_state s).opcode.Y = Y := by
  have hn : fetch s.mem s.program_counter / 4096 % 16 = 8 := by omega
  have hNd : (dispatch_state s).opcode.N = N := by rw [dispatch_N]; omega
  refine ⟨?_, by rw [dispatch_X]; omega, by rw [dispatch_Y]; omega⟩
  rw [exec_eq_dispatch, hn]
  simp only [opcode_ptr, call_ptr, nibble_8, hNd]
  simp [hN]

/-! ## C5: 8XY4 -/

/-- C5 (counterexample): with `80F4` at `program_counter`, `V0 = 1` and
`VF = 5` the step ends with `V0 = 1` and `VF = 0`, whereas
`(old V0 + old VF) mod 256 = 6`. -/
theorem add_8xy4_flag_operand_counterexample :
    fetch (arr_of [(0x200, 0x80), (0x201, 0xF4)]) 0x200 = 0x8004 + 0x100 * 0 + 0x10 * 0xF ∧
    (machine_of (arr_of [(0x200, 0x80), (0x201, 0xF4)]) (arr_of [(0, 1), (0xF, 5)])
      (fun _ => 0)).V 0 = 1 ∧
    (machine_of (arr_of [(0x200, 0x80), (0x201, 0xF4)]) (arr_of [(0, 1), (0xF, 5)])
      (fun _ => 0)).V 0xF = 5 ∧
    (chip8_execute_instruction
      (machine_of (arr_of [(0x200, 0x80), (0x201, 0xF4)]) (arr_of [(0, 1), (0xF, 5)])
        (fun _ => 0))).map (fun s => (s.V 0, s.V 0xF)) = some (1, 0) ∧
    (1 + 5) % 256 ≠ 1 := by
  refine ⟨by decide, by decide, by decide, by decide, by decide⟩

/-- C5 (amended): for `X` in 0..14 and `Y` in 0..15, 8XY4 leaves
`VF = 1` if `old VX + old VY > 255` and `VF = 0` otherwise; `VX` is
`(old VX + old VY) mod 256` when `Y` is not 0xF, and for `Y = 0xF`, the flag
being stored before the sum is formed, `VX = (old VX + new VF) mod 256`. -/
theorem add_8xy4 (s : Machine) (X Y : Nat) (hX : X ≤ 14) (hY : Y ≤ 15)
    (hw : fetch s.mem s.program_counter = 0x8000 + 0x100 * X + 0x10 * Y + 4) :
    ∃ s1, chip8_execute_instruction s = some s1 ∧
      s1.V 0xF = (if s.V X + s.V Y > 255 then 1 else 0) ∧
      s1.V X = (s.V X + (if Y = 0xF then s1.V 0xF else s.V Y)) % 256 := by
  obtain ⟨he, hx, hy⟩ := exec_family_8 s X Y 4 (by omega) hY (by omega) hw
  have hXF : X ≠ 15 := by omega
  have hFX : ¬ (15 = X) := by omega
  have hV : (dispatch_state s).V = s.V := rfl
  rw [he]
  simp only [call_ptr, opcode8, opcode8_4, hx, hy, hV, ite_arr_set]
  refine ⟨_, rfl, ?_, ?_⟩
  · simp [arr_set, hFX]
  · by_cases hYF : Y = 15
    · simp [arr_set, hXF, hFX, hYF, u8]
    · simp [arr_set, hXF, hFX, hYF, u8]

theorem add_8xy4_witness :
    ∃ s1, chip8_execute_instruction
        (machine_of (arr_of [(0x200, 0x81), (0x201, 0x24)]) (arr_of [(1, 0xFF), (2, 0x01)])
          (fun _ => 0)) = some s1 ∧
      s1.V 0xF = 1 ∧ s1.V 1 = 0 := by
  obtain ⟨s1, h1, h2, h3⟩ := add_8xy4
    (machine_of (arr_of [(0x200, 0x81), (0x201, 0x24)]) (arr_of [(1, 0xFF), (2, 0x01)])
      (fun _ => 0)) 1 2 (by decide) (by decide) (by decide)
  exact ⟨s1, h1, h2, h3.trans (by simp [machine_of, arr_of, List.lookup])⟩

/-! ## C6: 8XY5 -/

theorem u8_of_int_cast (z : Int) : ((u8_of_int z : Nat) : Int) = z % 256 := by
  unfold u8_of_int
  exact Int.toNat_of_nonneg (Int.emod_nonneg _ (by norm_num))

/-- C6: for `X` and `Y` in 0..14, 8XY5 leaves `VX = (old VX - old VY) mod 256`
and `VF = 1` if `old VX ≥ old VY` (equality included), `VF = 0` otherwise. -/
theorem sub_8xy5 (s : Machine) (X Y : Nat) (hX : X ≤ 14) (hY : Y ≤ 14)
    (hw : fetch s.mem s.program_counter = 0x8000 + 0x100 * X + 0x10 * Y + 5) :
    ∃ s1, chip8_execute_instruction s = some s1 ∧
      s1.V 0xF = (if s.V X ≥ s.V Y then 1 else 0) ∧
      (s1.V X : Int) = ((s.V X : Int) - (s.V Y : Int)) % 256 := by
  obtain ⟨he, hx, hy⟩ := exec_family_8 s X Y 5 (by omega) (by omega) (by omega) hw
  have hXF : X ≠ 15 := by omega
  have hFX : ¬ (15 = X) := by omega
  have hYF : Y ≠ 15 := by omega
  have hV : (dispatch_state s).V = s.V := rfl
  rw [he]
  simp only [call_ptr, opcode8, opcode8_5, hx, hy, hV, ite_arr_set]
  refine ⟨_, rfl, ?_, ?_⟩
  · simp [arr_set, hFX]
  · simp only [arr_set, hXF, hYF, if_true, if_false]
    exact u8_of_int_cast _

theorem sub_8xy5_witness :
    ∃ s1, chip8_execute_instruction
        (machine_of (arr_of [(0x200, 0x81), (0x201, 0x25)]) (arr_of [(1, 0x05), (2, 0x05)])
          (fun _ => 0)) = some s1 ∧
      s1.V 0xF = 1 ∧ (s1.V 1 : Int) = 0 := by
  obtain ⟨s1, h1, h2, h3⟩ := sub_8xy5
    (machine_of (arr_of [(0x200, 0x81), (0x201, 0x25)]) (arr_of [(1, 0x05), (2, 0x05)])
      (fun _ => 0)) 1 2 (by decide) (by decide) (by decide)
  exact ⟨s1, h1, h2, h3.trans (by simp [machine_of, arr_of, List.lookup])⟩

/-! ## C7: the shifts 8XY6 and 8XYE -/

theorem msb_flag (v : Nat) (hv : v < 256) :
    (if v &&& 0x80 = 0x80 then 1 else 0) = v >>> 7 := by
  have h := Nat.and_two_pow v 7
  have ht : v.testBit 7 = decide (v / 2 ^ 7 % 2 = 1) := Nat.testBit_to_div_mod
  rw [Nat.shiftRight_eq_div_pow]
  have h128 : (0x80 : Nat) = 2 ^ 7 := by norm_num
  rw [h128, h, ht]
  by_cases hb : v / 2 ^ 7 % 2 = 1
  · simp only [hb, decide_True, Bool.toNat_true, Nat.one_mul, if_true]
    omega
  · simp only [hb, decide_False, Bool.toNat_false, Nat.zero_mul]
    norm_num at hb ⊢
    omega

/-- The state 8XY6 leaves: only `VX` and `VF` are written. -/
theorem shr_8xy6 (s : Machine) (X Y : Nat) (hX : X ≤ 14) (hY : Y ≤ 15)
    (hV : s.V X < 256)
    (hw : fetch s.mem s.program_counter = 0x8000 + 0x100 * X + 0x10 * Y + 6) :
    ∃ s1, chip8_execute_instruction s = some s1 ∧
      s1.V 0xF = s.V X &&& 1 ∧ s1.V X = s.V X >>> 1 ∧
      s1.V = arr_set (arr_set s.V 0xF (s.V X &&& 1)) X (s.V X >>> 1) ∧
      register_step_frame s s1 X := by
  obtain ⟨he, hx, hy⟩ := exec_family_8 s X Y 6 (by omega) (by omega) (by omega) hw
  have hXF : X ≠ 15 := by omega
  have hFX : ¬ (15 = X) := by omega
  have hVd : (dispatch_state s).V = s.V := rfl
  have e1 : u8 (s.V X &&& 1) = s.V X &&& 1 := by
    simp only [u8, Nat.and_one_is_mod]; omega
  have e2 : u8 (s.V X >>> 1) = s.V X >>> 1 := by
    simp only [u8, Nat.shiftRight_eq_div_pow]; omega
  have e3 : arr_set s.V 0xF (s.V X &&& 1) X = s.V X := by simp [arr_set, hXF]
  rw [he]
  simp only [call_ptr, opcode8, opcode8_6, hx, hVd, e1, e3, e2]
  refine ⟨_, rfl, ?_, ?_, rfl, ?_, rfl, rfl, rfl, rfl, rfl, rfl, rfl, rfl, rfl, rfl, rfl, rfl⟩
  · simp [arr_set, hFX]
  · simp [arr_set]
  · intro k hk hkF
    simp [arr_set, hk, hkF]

/-- The state 8XYE leaves: only `VX` and `VF` are written. -/
theorem shl_8xye (s : Machine) (X Y : Nat) (hX : X ≤ 14) (hY : Y ≤ 15)
    (hV : s.V X < 256)
    (hw : fetch s.mem s.program_counter = 0x8000 + 0x100 * X + 0x10 * Y + 0xE) :
    ∃ s1, chip8_execute_instruction s = some s1 ∧
      s1.V 0xF = s.V X >>> 7 ∧ s1.V X = (s.V X <<< 1) % 256 ∧
      s1.V = arr_set (arr_set s.V 0xF (s.V X >>> 7)) X ((s.V X <<< 1) % 256) ∧
      register_step_frame s s1 X := by
  obtain ⟨he, hx, hy⟩ := exec_family_8 s X Y 0xE (by omega) (by omega) (by omega) hw
  have hXF : X ≠ 15 := by omega
  have hFX : ¬ (15 = X) := by omega
  have hVd : (dispatch_state s).V = s.V := rfl
  have e1 : (if s.V X &&& 0x80 = 0x80 then 1 else 0) = s.V X >>> 7 := msb_flag _ hV
  have e3 : arr_set s.V 0xF (s.V X >>> 7) X = s.V X := by simp [arr_set, hXF]
  rw [he]
  simp only [call_ptr, opcode8, opcode8_E, hx, hVd, ite_arr_set, e1, e3, u8]
  refine ⟨_, rfl, ?_, ?_, rfl, ?_, rfl, rfl, rfl, rfl, rfl, rfl, rfl, rfl, rfl, rfl, rfl, rfl⟩
  · simp [arr_set, hFX]
  · simp [arr_set]
  · intro k hk hkF
    simp [arr_set, hk, hkF]

/-- C7: for `X` in 0..14 and `Y` in 0..15, 8XY6 (`N = 6`) leaves
`VF = old VX & 1` and `VX = old VX >> 1`, and 8XYE (`N = 0xE`) leaves
`VF = old VX >> 7` and `VX = (old VX << 1) mod 256`; these are the only
writes: the register file afterwards is the old one with `VF` and `VX`
replaced, and `I`, the stack, the stack pointer, memory, the framebuffer, the
keypad, the timers are unchanged and the program counter is advanced by 2
(`register_step_frame`).  So the resulting state does not depend on `Y` or
`VY`: a second machine `t` with the same `VX`, whatever its other registers
and whatever selector `Y2` its instruction carries, ends with the same `VX`
and `VF` and everything else of `t` unchanged, and if `s` and `t` agree on
every component but memory, so do the resulting states. -/
theorem shift_uses_VX_only (s t : Machine) (X Y Y2 N : Nat) (hN : N = 6 ∨ N = 0xE)
    (hX : X ≤ 14) (hY : Y ≤ 15) (hY2 : Y2 ≤ 15) (hV : s.V X < 256) (hst : t.V X = s.V X)
    (hs : fetch s.mem s.program_counter = 0x8000 + 0x100 * X + 0x10 * Y + N)
    (ht : fetch t.mem t.program_counter = 0x8000 + 0x100 * X + 0x10 * Y2 + N) :
    ∃ s1 t1, chip8_execute_instruction s = some s1 ∧ chip8_execute_instruction t = some t1 ∧
      s1.V 0xF = (if N = 6 then s.V X &&& 1 else s.V X >>> 7) ∧
      s1.V X = (if N = 6 then s.V X >>> 1 else (s.V X <<< 1) % 256) ∧
      t1.V 0xF = s1.V 0xF ∧ t1.V X = s1.V X ∧
      s1.V = arr_set (arr_set s.V 0xF (if N = 6 then s.V X &&& 1 else s.V X >>> 7)) X
        (if N = 6 then s.V X >>> 1 else (s.V X <<< 1) % 256) ∧
      t1.V = arr_set (arr_set t.V 0xF (if N = 6 then s.V X &&& 1 else s.V X >>> 7)) X
        (if N = 6 then s.V X >>> 1 else (s.V X <<< 1) % 256) ∧
      register_step_frame s s1 X ∧ register_step_frame t t1 X ∧
      (same_visible s t → same_visible s1 t1) := by
  have hvis : ∀ (s1 t1 : Machine) (f v : Nat),
      s1.V = arr_set (arr_set s.V 0xF f) X v → t1.V = arr_set (arr_set t.V 0xF f) X v →
      register_step_frame s s1 X → register_step_frame t t1 X →
      same_visible s t → same_visible s1 t1 := by
    intro s1 t1 f v hs1 ht1 hfs hft hsame
    obtain ⟨_, a2, a3, a4, a5, a6, a7, a8, a9, a10, _⟩ := hfs
    obtain ⟨_, b2, b3, b4, b5, b6, b7, b8, b9, b10, _⟩ := hft
    obtain ⟨c1, c2, c3, c4, c5, c6, c7, c8, c9⟩ := hsame
    refine ⟨by rw [a3, b3, c1], by rw [hs1, ht1, c2], by rw [a2, b2, c3], by rw [a4, b4, c4],
      by rw [a5, b5, c5], by rw [a7, b7, c6], by rw [a8, b8, c7], by rw [a9, b9, c8],
      by rw [a10, b10, c9]⟩
  rcases hN with hN | hN
  · subst hN
    obtain ⟨s1, hs1, hsF, hsX, hsV, hsfr⟩ := shr_8xy6 s X Y hX hY hV hs
    obtain ⟨t1, ht1, htF, htX, htV, htfr⟩ := shr_8xy6 t X Y2 hX hY2 (hst ▸ hV) ht
    rw [hst] at htV
    exact ⟨s1, t1, hs1, ht1, by simpa using hsF, by simpa using hsX,
      by rw [htF, hsF, hst], by rw [htX, hsX, hst], by simpa using hsV, by simpa using htV,
      hsfr, htfr, hvis s1 t1 _ _ hsV htV hsfr htfr⟩
  · subst hN
    obtain ⟨s1, hs1, hsF, hsX, hsV, hsfr⟩ := shl_8xye s X Y hX hY hV hs
    obtain ⟨t1, ht1, htF, htX, htV, htfr⟩ := shl_8xye t X Y2 hX hY2 (hst ▸ hV) ht
    rw [hst] at htV
    exact ⟨s1, t1, hs1, ht1, by simpa using hsF, by simpa using hsX,
      by rw [htF, hsF, hst], by rw [htX, hsX, hst], by simpa using hsV, by simpa using htV,
      hsfr, htfr, hvis s1 t1 _ _ hsV htV hsfr htfr⟩

theorem shift_uses_VX_only_witness :
    ∃ s1 t1,
      chip8_execute_instruction
        { machine_of (arr_of [(0x200, 0x81), (0x201, 0x2E)]) (arr_of [(1, 0x81), (2, 0x33)])
            (fun _ => 0) with I := 0x321 } = some s1 ∧
      chip8_execute_instruction
        (machine_of (arr_of [(0x200, 0x81), (0x201, 0x7E)]) (arr_of [(1, 0x81), (7, 0x44)])
          (fun _ => 0)) = some t1 ∧
      s1.V 0xF = 1 ∧ s1.V 1 = 2 ∧ t1.V 0xF = s1.V 0xF ∧ t1.V 1 = s1.V 1 ∧
      s1.V 2 = 0x33 ∧ t1.V 7 = 0x44 ∧ s1.I = 0x321 ∧ s1.mem 0x201 = 0x2E ∧
      s1.program_counter = 0x202 := by
  obtain ⟨s1, t1, h1, h2, h3, h4, h5, h6, _, _, hfs, hft, _⟩ := shift_uses_VX_only
    { machine_of (arr_of [(0x200, 0x81), (0x201, 0x2E)]) (arr_of [(1, 0x81), (2, 0x33)])
        (fun _ => 0) with I := 0x321 }
    (machine_of (arr_of [(0x200, 0x81), (0x201, 0x7E)]) (arr_of [(1, 0x81), (7, 0x44)])
      (fun _ => 0))
    1 2 7 0xE (Or.inr rfl) (by decide) (by decide) (by decide) (by decide) (by decide)
    (by decide) (by decide)
  obtain ⟨a1, a2, _, _, a5, a6, _⟩ := hfs
  obtain ⟨b1, _⟩ := hft
  exact ⟨s1, t1, h1, h2, h3.trans (by decide), h4.trans (by decide), h5, h6,
    (a1 2 (by decide) (by decide)).trans (by decide),
    (b1 7 (by decide) (by decide)).trans (by decide), a2, by rw [a6]; decide,
    a5.trans (by decide)⟩

/-! ## C8: 7XNN -/

/-- C8: for `X` in 0..15 and a byte `NN`, 7XNN leaves
`VX = (old VX + NN) mod 256`, every other V register (VF included when
`X` is not 0xF) unchanged, `program_counter` advanced by 2 (in 16-bit
arithmetic), and `I`, the stack, the stack depth, memory, the framebuffer,
the keypad and the timers unchanged. -/
theorem add_imm_7xnn (s : Machine) (X NN : Nat) (hX : X ≤ 15) (hNN : NN ≤ 255)
    (hw : fetch s.mem s.program_counter = 0x7000 + 0x100 * X + NN) :
    ∃ s1, chip8_execute_instruction s = some s1 ∧
      s1.V X = (s.V X + NN) % 256 ∧
      (∀ k, k ≠ X → s1.V k = s.V k) ∧
      s1.program_counter = (s.program_counter + 2) % 65536 ∧
      s1.I = s.I ∧ s1.stack = s.stack ∧ s1.stack_pointer = s.stack_pointer ∧
      s1.mem = s.mem ∧ s1.framebuffer = s.framebuffer ∧ s1.buttons = s.buttons ∧
      s1.delay_timer = s.delay_timer ∧ s1.sound_timer = s.sound_timer := by
  have hn : fetch s.mem s.program_counter / 4096 % 16 = 7 := by omega
  have hx : (dispatch_state s).opcode.X = X := by rw [dispatch_X]; omega
  have hnn : (dispatch_state s).opcode.NN = NN := by rw [dispatch_NN]; omega
  have hVd : (dispatch_state s).V = s.V := rfl
  rw [exec_eq_dispatch, hn]
  simp only [opcode_ptr, call_ptr, nibble_7, hx, hnn, hVd]
  refine ⟨_, rfl, ?_, ?_, rfl, rfl, rfl, rfl, rfl, rfl, rfl, rfl, rfl⟩
  · simp [arr_set, u8]
  · intro k hk
    simp [arr_set, hk]

theorem add_imm_7xnn_witness :
    ∃ s1, chip8_execute_instruction
        (machine_of (arr_of [(0x200, 0x71), (0x201, 0x02)]) (arr_of [(1, 0xFF), (0xF, 7)])
          (fun _ => 0)) = some s1 ∧
      s1.V 1 = 1 ∧ s1.V 0xF = 7 ∧ s1.program_counter = 0x202 := by
  obtain ⟨s1, h1, h2, h3, h4, _⟩ := add_imm_7xnn
    (machine_of (arr_of [(0x200, 0x71), (0x201, 0x02)]) (arr_of [(1, 0xFF), (0xF, 7)])
      (fun _ => 0)) 1 2 (by decide) (by decide) (by decide)
  exact ⟨s1, h1, h2.trans (by decide), (h3 0xF (by decide)).trans (by decide),
    h4.trans (by decide)⟩

/-! ## C9: call and return -/

/-- Opcode 2NNN with a free stack slot: the address of the next instruction is
stored at the stack pointer, which is then incremented. -/
theorem call_2nnn (s : Machine) (NNN : Nat) (hN : NNN ≤ 0xFFF) (hd : s.stack_pointer < 16)
    (hw : fetch s.mem s.program_counter = 0x2000 + NNN) :
    chip8_execute_instruction s = some
      { dispatch_state s with
        stack := arr_set s.stack s.stack_pointer (u16 (s.program_counter + 2))
        program_counter := NNN
        stack_pointer := s.stack_pointer + 1 } := by
  have hn : fetch s.mem s.program_counter / 4096 % 16 = 2 := by omega
  have hnnn : (dispatch_state s).opcode.NNN = NNN := by rw [dispatch_NNN]; omega
  have hsp : (dispatch_state s).stack_pointer = s.stack_pointer := rfl
  rw [exec_eq_dispatch, hn]
  simp only [opcode_ptr, call_ptr, nibble_2, hnnn, hsp, hd, if_true]
  rfl

/-- Opcode 00EE with a non-empty stack. -/
theorem return_00ee (s : Machine) (hd1 : 1 ≤ s.stack_pointer) (hd2 : s.stack_pointer ≤ 16)
    (hw : fetch s.mem s.program_counter = 0x00EE) :
    chip8_execute_instruction s = some
      { dispatch_state s with
        stack_pointer := s.stack_pointer - 1
        program_counter := s.stack (s.stack_pointer - 1) } := by
  have hn : fetch s.mem s.program_counter / 4096 % 16 = 0 := by omega
  have hNd : (dispatch_state s).opcode.N = 0xE := by rw [dispatch_N]; omega
  have hsp : (dispatch_state s).stack_pointer = s.stack_pointer := rfl
  have hlt : s.stack_pointer - 1 < 16 := by omega
  rw [exec_eq_dispatch, hn]
  simp only [opcode_ptr, call_ptr, nibble_0, hNd, opcode0, opcode0_EE, hsp, hd1, hlt]
  simp
  rfl

/-- C9: with stack depth `d < 16`, the word 2NNN at `program_counter = p` and
the word 00EE at `NNN`, two consecutive calls of `chip8_execute_instruction`
return and end with `program_counter = (p + 2) mod 65536`, stack depth `d`,
and the V registers, `I` and memory unchanged. -/
theorem call_return_roundtrip (s : Machine) (NNN : Nat) (hN : NNN ≤ 0xFFF)
    (hd : s.stack_pointer < 16)
    (hcall : fetch s.mem s.program_counter = 0x2000 + NNN)
    (hret : fetch s.mem NNN = 0x00EE) :
    ∃ s1 s2, chip8_execute_instruction s = some s1 ∧ chip8_execute_instruction s1 = some s2 ∧
      s2.program_counter = (s.program_counter + 2) % 65536 ∧
      s2.stack_pointer = s.stack_pointer ∧
      s2.V = s.V ∧ s2.I = s.I ∧ s2.mem = s.mem := by
  refine ⟨_, _, call_2nnn s NNN hN hd hcall, return_00ee _ ?_ ?_ hret, ?_, ?_, rfl, rfl, rfl⟩
  · show 1 ≤ s.stack_pointer + 1
    omega
  · show s.stack_pointer + 1 ≤ 16
    omega
  · show arr_set s.stack s.stack_pointer (u16 (s.program_counter + 2))
      (s.stack_pointer + 1 - 1) = _
    simp [arr_set, u16]
  · show s.stack_pointer + 1 - 1 = s.stack_pointer
    omega

theorem call_return_roundtrip_witness :
    ∃ s1 s2,
      chip8_execute_instruction
        (machine_of (arr_of [(0x200, 0x23), (0x201, 0x00), (0x300, 0x00), (0x301, 0xEE)])
          (fun _ => 0) (fun _ => 0)) = some s1 ∧
      chip8_execute_instruction s1 = some s2 ∧
      s2.program_counter = 0x202 ∧ s2.stack_pointer = 0 := by
  obtain ⟨s1, s2, h1, h2, h3, h4, _⟩ := call_return_roundtrip
    (machine_of (arr_of [(0x200, 0x23), (0x201, 0x00), (0x300, 0x00), (0x301, 0xEE)])
      (fun _ => 0) (fun _ => 0)) 0x300 (by decide) (by decide) (by decide) (by decide)
  exact ⟨s1, s2, h1, h2, h3.trans (by decide), h4.trans (by decide)⟩

/-! ## C10: the pixels `chip8_draw_sprite` toggles -/

theorem draw_sprite_cols_spec (x bits ptr : Nat) (hb : ptr + (64 - x) ≤ 2048) :
    ∀ fuel j (st : (Nat → Nat) × Nat), 8 - j ≤ fuel →
      ∃ st1, draw_sprite_cols x bits ptr fuel j st = some st1 ∧
        ∀ q, st1.1 q = if col_hit x bits ptr j q then st.1 q ^^^ PIXEL_SET else st.1 q := by
  intro fuel
  induction fuel with
  | zero =>
    intro j st hf
    have hg : ¬ (j < 8 ∧ x + j < 64) := by omega
    refine ⟨st, by simp [draw_sprite_cols, hg], fun q => ?_⟩
    have : ¬ col_hit x bits ptr j q := by unfold col_hit; omega
    simp [this]
  | succ fuel ih =>
    intro j st hf
    by_cases hg : j < 8 ∧ x + j < 64
    · have hu : u8 (j + 1) = j + 1 := by unfold u8; omega
      by_cases hbit : bits &&& (0x80 >>> j) ≠ 0
      · have hin : ptr + j < 64 * 32 := by omega
        obtain ⟨st1, hrun, hpix⟩ := ih (j + 1)
          (arr_set st.1 (ptr + j) (st.1 (ptr + j) ^^^ PIXEL_SET),
            if arr_set st.1 (ptr + j) (st.1 (ptr + j) ^^^ PIXEL_SET) (ptr + j) = 0 then 1
            else st.2) (by omega)
        refine ⟨st1, by simpa [draw_sprite_cols, hg, hbit, hin, hu] using hrun, fun q => ?_⟩
        rw [hpix q]
        by_cases hq : q = ptr + j
        · subst hq
          have h1 : ¬ col_hit x bits ptr (j + 1) (ptr + j) := by unfold col_hit; omega
          have h2 : col_hit x bits ptr j (ptr + j) := by
            unfold col_hit
            have : ptr + j - ptr = j := by omega
            rw [this]
            exact ⟨le_refl _, hg.1, hg.2, hbit⟩
          simp [h1, h2, arr_set]
        · have h12 : col_hit x bits ptr (j + 1) q ↔ col_hit x bits ptr j q := by
            unfold col_hit
            constructor
            · rintro ⟨a, b⟩; exact ⟨by omega, b⟩
            · rintro ⟨a, b⟩; exact ⟨by omega, b⟩
          simp [h12, arr_set, hq]
      · obtain ⟨st1, hrun, hpix⟩ := ih (j + 1) st (by omega)
        refine ⟨st1, by simpa [draw_sprite_cols, hg, hbit, hu] using hrun, fun q => ?_⟩
        rw [hpix q]
        have h12 : col_hit x bits ptr (j + 1) q ↔ col_hit x bits ptr j q := by
          unfold col_hit
          constructor
          · rintro ⟨a, b⟩; exact ⟨by omega, b⟩
          · rintro ⟨a, b, c, d⟩
            refine ⟨?_, b, c, d⟩
            by_contra hcon
            have : q - ptr = j := by omega
            rw [this] at d
            exact hbit d
        simp [h12]
    · refine ⟨st, by simp [draw_sprite_cols, hg], fun q => ?_⟩
      have : ¬ col_hit x bits ptr j q := by unfold col_hit; omega
      simp [this]

theorem draw_sprite_rows_spec (mem : Nat → Nat) (address x y height : Nat) (hx : x < 64)
    (hy : y + height ≤ 32) :
    ∀ fuel i (st : (Nat → Nat) × Nat), i ≤ height → height - i ≤ fuel →
      ∃ st1, draw_sprite_rows mem address x height fuel i ((y + i) * 64 + x) st = some st1 ∧
        ∀ q, st1.1 q =
          if row_hit mem address x y height i q then st.1 q ^^^ PIXEL_SET else st.1 q := by
  intro fuel
  induction fuel with
  | zero =>
    intro i st hi hf
    have hg : ¬ i < height := by omega
    refine ⟨st, by simp [draw_sprite_rows, hg], fun q => ?_⟩
    have : ¬ row_hit mem address x y height i q := by unfold row_hit; omega
    simp [this]
  | succ fuel ih =>
    intro i st hi hf
    by_cases hg : i < height
    · obtain ⟨st1, hcols, hpix1⟩ := draw_sprite_cols_spec x (chip8_mem_read mem (address + i))
        ((y + i) * 64 + x) (by omega) 8 0 st (by omega)
      obtain ⟨st2, hrows, hpix2⟩ := ih (i + 1) st1 (by omega) (by omega)
      have hu : u8 (i + 1) = i + 1 := by unfold u8; omega
      have hptr : (y + i) * 64 + x + 64 = (y + (i + 1)) * 64 + x := by omega
      refine ⟨st2, ?_, fun q => ?_⟩
      · simp only [draw_sprite_rows, hg, if_true, hcols, hu, hptr]
        exact hrows
      · rw [hpix2 q, hpix1 q]
        by_cases hq : q / 64 = y + i
        · have h1 : ¬ row_hit mem address x y height (i + 1) q := by unfold row_hit; omega
          have h2 : row_hit mem address x y height i q ↔
              col_hit x (chip8_mem_read mem (address + i)) ((y + i) * 64 + x) 0 q := by
            unfold row_hit
            have e1 : q / 64 - y = i := by omega
            rw [e1, hq]
            constructor
            · rintro ⟨_, _, h⟩; exact h
            · intro h; exact ⟨le_refl _, by omega, h⟩
          simp [h1, h2]
        · have h1 : ¬ col_hit x (chip8_mem_read mem (address + i)) ((y + i) * 64 + x) 0 q := by
            unfold col_hit
            omega
          have h2 : row_hit mem address x y height (i + 1) q ↔
              row_hit mem address x y height i q := by
            unfold row_hit
            constructor
            · rintro ⟨a, b⟩; exact ⟨by omega, b⟩
            · rintro ⟨a, b⟩; exact ⟨by omega, b⟩
          simp [h1, h2]
    · refine ⟨st, by simp [draw_sprite_rows, hg], fun q => ?_⟩
      have : ¬ row_hit mem address x y height i q := by unfold row_hit; omega
      simp [this]

theorem bit_mask_testBit (bits j : Nat) (hj : j < 8) :
    bits &&& (0x80 >>> j) ≠ 0 ↔ bits.testBit (7 - j) = true := by
  have hpow : (0x80 : Nat) >>> j = 2 ^ (7 - j) := by
    interval_cases j <;> rfl
  rw [hpow, Nat.and_two_pow]
  cases bits.testBit (7 - j) <;> simp

theorem chip8_mem_read_mod (mem : Nat → Nat) (a : Nat) :
    chip8_mem_read mem a = mem (a % 4096) := by
  have h : u16 a &&& MEMORY_MASK = a % 4096 := by
    show (a % 65536) &&& 0xFFF = a % 4096
    rw [and_0xFFF]
    omega
  simp only [chip8_mem_read, h]

/-- The clipped height and the start pointer of `chip8_draw_sprite`. -/
theorem chip8_draw_sprite_eq (mem fb : Nat → Nat) (address x y height : Nat) :
    chip8_draw_sprite mem fb address x y height
      = draw_sprite_rows mem address (x % 64) (min height (32 - y % 32)) 256 0
          ((y % 32 + 0) * 64 + x % 64) (fb, 0) := by
  have hh : (if height + y % 32 > 32 then u8 (32 - y % 32) else height)
      = min height (32 - y % 32) := by
    unfold u8
    split <;> omega
  have hp : (y % 32) <<< 6 + x % 64 = (y % 32 + 0) * 64 + x % 64 := by
    rw [Nat.shiftLeft_eq]; omega
  simp only [chip8_draw_sprite, and_0x1F, and_0x3F, hh, hp]

/-- C10: `chip8_draw_sprite` returns, and with `x0 = x mod 64`,
`y0 = y mod 32` the pixel at row `r`, column `c` is the old value XOR
`0xFFFFFFFF` when `y0 ≤ r < min (y0 + height) 32`,
`x0 ≤ c < min (x0 + 8) 64` and bit `7 - (c - x0)` of
`memory[(address + (r - y0)) mod 4096]` is set, and is the old value
otherwise; so a sprite at `y0 = 30` changes no pixel outside rows 30 and 31,
and a sprite at `x0 = 60` changes no pixel in columns 0..59. -/
theorem draw_sprite_pixels (mem fb : Nat → Nat) (address x y height : Nat) :
    ∃ fb1 collision, chip8_draw_sprite mem fb address x y height = some (fb1, collision) ∧
      (∀ r c, c < 64 →
        fb1 (r * 64 + c) =
          if y % 32 ≤ r ∧ r < min (y % 32 + height) 32 ∧
              x % 64 ≤ c ∧ c < min (x % 64 + 8) 64 ∧
              (mem ((address + (r - y % 32)) % 4096)).testBit (7 - (c - x % 64)) = true
          then fb (r * 64 + c) ^^^ 0xFFFFFFFF else fb (r * 64 + c)) ∧
      (y % 32 = 30 → ∀ r c, c < 64 → r ≠ 30 → r ≠ 31 → fb1 (r * 64 + c) = fb (r * 64 + c)) ∧
      (x % 64 = 60 → ∀ r c, c < 60 → fb1 (r * 64 + c) = fb (r * 64 + c)) := by
  obtain ⟨st1, hrun, hpix⟩ := draw_sprite_rows_spec mem address (x % 64) (y % 32)
    (min height (32 - y % 32)) (by omega) (by omega) 256 0 (fb, 0) (by omega) (by omega)
  have key : ∀ r c, c < 64 →
      st1.1 (r * 64 + c) =
        if y % 32 ≤ r ∧ r < min (y % 32 + height) 32 ∧
            x % 64 ≤ c ∧ c < min (x % 64 + 8) 64 ∧
            (mem ((address + (r - y % 32)) % 4096)).testBit (7 - (c - x % 64)) = true
        then fb (r * 64 + c) ^^^ 0xFFFFFFFF else fb (r * 64 + c) := by
    intro r c hc
    rw [hpix (r * 64 + c)]
    have hdiv : (r * 64 + c) / 64 = r := by omega
    have hiff : row_hit mem address (x % 64) (y % 32) (min height (32 - y % 32)) 0 (r * 64 + c) ↔
        (y % 32 ≤ r ∧ r < min (y % 32 + height) 32 ∧
          x % 64 ≤ c ∧ c < min (x % 64 + 8) 64 ∧
          (mem ((address + (r - y % 32)) % 4096)).testBit (7 - (c - x % 64)) = true) := by
      unfold row_hit col_hit
      rw [hdiv, chip8_mem_read_mod]
      constructor
      · rintro ⟨h1, h2, h3, h4, h5, h6⟩
        have hsub : r * 64 + c - (r * 64 + x % 64) = c - x % 64 := by omega
        rw [hsub] at h4 h5 h6
        refine ⟨by omega, by omega, by omega, by omega, ?_⟩
        exact (bit_mask_testBit _ _ h4).1 h6
      · rintro ⟨h1, h2, h3, h4, h5⟩
        have hsub : r * 64 + c - (r * 64 + x % 64) = c - x % 64 := by omega
        rw [hsub]
        refine ⟨by omega, by omega, by omega, by omega, by omega, ?_⟩
        exact (bit_mask_testBit _ _ (by omega)).2 h5
    by_cases hhit : row_hit mem address (x % 64) (y % 32) (min height (32 - y % 32)) 0
        (r * 64 + c)
    · rw [if_pos hhit, if_pos (hiff.1 hhit)]; rfl
    · rw [if_neg hhit, if_neg (fun h => hhit (hiff.2 h))]
  refine ⟨st1.1, st1.2, by rw [chip8_draw_sprite_eq]; exact hrun, key, ?_, ?_⟩
  · intro hy r c hc h30 h31
    rw [key r c hc, if_neg]
    omega
  · intro hx r c hc
    rw [key r c (by omega), if_neg]
    omega

theorem draw_sprite_pixels_witness :
    ∃ fb1 collision,
      chip8_draw_sprite (fun _ => 0xFF) (fun _ => 0) 0x300 60 30 8 = some (fb1, collision) ∧
      fb1 (30 * 64 + 60) = 0xFFFFFFFF ∧ fb1 (31 * 64 + 63) = 0xFFFFFFFF ∧
      fb1 (0 * 64 + 60) = 0 ∧ fb1 (30 * 64 + 0) = 0 ∧ fb1 (31 * 64 + 0) = 0 := by
  obtain ⟨fb1, collision, h, hpix, hrow, hcol⟩ :=
    draw_sprite_pixels (fun _ => 0xFF) (fun _ => 0) 0x300 60 30 8
  exact ⟨fb1, collision, h, (hpix 30 60 (by decide)).trans (by decide),
    (hpix 31 63 (by decide)).trans (by decide),
    hrow (by decide) 0 60 (by decide) (by decide) (by decide),
    hcol (by decide) 30 0 (by decide), hcol (by decide) 31 0 (by decide)⟩

/-! ## C11: the collision flag -/

/-- Collision flag of the inner loop: it becomes 1 when a toggled pixel ends
at 0, and keeps its value when no toggled pixel does. -/
theorem draw_sprite_cols_collision (x bits ptr : Nat) :
    ∀ fuel j (st st1 : (Nat → Nat) × Nat),
      draw_sprite_cols x bits ptr fuel j st = some st1 →
        ((∃ q, col_hit x bits ptr j q ∧ st.1 q ^^^ PIXEL_SET = 0) → st1.2 = 1) ∧
        ((∀ q, col_hit x bits ptr j q → st.1 q ^^^ PIXEL_SET ≠ 0) → st1.2 = st.2) := by
  intro fuel
  induction fuel with
  | zero =>
    intro j st st1 hrun
    by_cases hg : j < 8 ∧ x + j < 64
    · simp [draw_sprite_cols, hg] at hrun
    · have hno : ∀ q, ¬ col_hit x bits ptr j q := by intro q; unfold col_hit; omega
      simp only [draw_sprite_cols, hg, if_false, Option.some.injEq] at hrun
      subst hrun
      exact ⟨fun ⟨q, hq, _⟩ => absurd hq (hno q), fun _ => rfl⟩
  | succ fuel ih =>
    intro j st st1 hrun
    by_cases hg : j < 8 ∧ x + j < 64
    · have hu : u8 (j + 1) = j + 1 := by unfold u8; omega
      have hjj : col_hit x bits ptr j (ptr + j) ↔ bits &&& (0x80 >>> j) ≠ 0 := by
        unfold col_hit
        have : ptr + j - ptr = j := by omega
        rw [this]
        constructor
        · rintro ⟨_, _, _, h⟩; exact h
        · intro h; exact ⟨le_refl _, hg.1, hg.2, h⟩
      have hlater : ∀ q, col_hit x bits ptr (j + 1) q ↔ (col_hit x bits ptr j q ∧ q ≠ ptr + j) := by
        intro q
        unfold col_hit
        constructor
        · rintro ⟨a, b⟩; exact ⟨⟨by omega, b⟩, by omega⟩
        · rintro ⟨⟨a, b⟩, c⟩; exact ⟨by omega, b⟩
      by_cases hbit : bits &&& (0x80 >>> j) ≠ 0
      · by_cases hin : ptr + j < 64 * 32
        · have hrun1 : draw_sprite_cols x bits ptr fuel (j + 1)
              (arr_set st.1 (ptr + j) (st.1 (ptr + j) ^^^ PIXEL_SET),
                if arr_set st.1 (ptr + j) (st.1 (ptr + j) ^^^ PIXEL_SET) (ptr + j) = 0 then 1
                else st.2) = some st1 := by
            simpa [draw_sprite_cols, hg, hbit, hin, hu] using hrun
          obtain ⟨ihA, ihB⟩ := ih _ _ _ hrun1
          have hsame : ∀ q, q ≠ ptr + j →
              arr_set st.1 (ptr + j) (st.1 (ptr + j) ^^^ PIXEL_SET) q = st.1 q := by
            intro q hq; simp [arr_set, hq]
          have hhere : arr_set st.1 (ptr + j) (st.1 (ptr + j) ^^^ PIXEL_SET) (ptr + j)
              = st.1 (ptr + j) ^^^ PIXEL_SET := by simp [arr_set]
          constructor
          · rintro ⟨q, hq, hz⟩
            by_cases hex : ∃ q2, col_hit x bits ptr (j + 1) q2 ∧
                arr_set st.1 (ptr + j) (st.1 (ptr + j) ^^^ PIXEL_SET) q2 ^^^ PIXEL_SET = 0
            · exact ihA hex
            · have hall : ∀ q2, col_hit x bits ptr (j + 1) q2 →
                  arr_set st.1 (ptr + j) (st.1 (ptr + j) ^^^ PIXEL_SET) q2 ^^^ PIXEL_SET ≠ 0 :=
                fun q2 h2 h0 => hex ⟨q2, h2, h0⟩
              have hq0 : q = ptr + j := by
                by_contra hne
                exact hall q ((hlater q).2 ⟨hq, hne⟩) (by simpa [hsame q hne] using hz)
              subst hq0
              have := ihB hall
              rw [hhere, hz, if_pos rfl] at this
              exact this
          · intro hall
            have hall2 : ∀ q2, col_hit x bits ptr (j + 1) q2 →
                arr_set st.1 (ptr + j) (st.1 (ptr + j) ^^^ PIXEL_SET) q2 ^^^ PIXEL_SET ≠ 0 := by
              intro q2 h2
              obtain ⟨h2a, h2b⟩ := (hlater q2).1 h2
              rw [hsame q2 h2b]
              exact hall q2 h2a
            have := ihB hall2
            have hnz : st.1 (ptr + j) ^^^ PIXEL_SET ≠ 0 := hall _ (hjj.2 hbit)
            simp only [hhere, hnz, if_false] at this
            exact this
        · simp [draw_sprite_cols, hg, hbit, hin] at hrun
      · have hrun1 : draw_sprite_cols x bits ptr fuel (j + 1) st = some st1 := by
          simpa [draw_sprite_cols, hg, hbit, hu] using hrun
        obtain ⟨ihA, ihB⟩ := ih _ _ _ hrun1
        have hnot : ¬ col_hit x bits ptr j (ptr + j) := fun h => hbit (hjj.1 h)
        constructor
        · rintro ⟨q, hq, hz⟩
          have hne : q ≠ ptr + j := fun h => hnot (h ▸ hq)
          exact ihA ⟨q, (hlater q).2 ⟨hq, hne⟩, hz⟩
        · intro hall
          exact ihB fun q2 h2 => hall q2 ((hlater q2).1 h2).1
    · have hno : ∀ q, ¬ col_hit x bits ptr j q := by intro q; unfold col_hit; omega
      simp only [draw_sprite_cols, hg, if_false, Option.some.injEq] at hrun
      subst hrun
      exact ⟨fun ⟨q, hq, _⟩ => absurd hq (hno q), fun _ => rfl⟩

/-- The pixels toggled from row `i` on are those of row `i` and those toggled
from row `i + 1` on; the two sets are disjoint. -/
theorem row_hit_split (mem : Nat → Nat) (address x y height i q : Nat) (hx : x < 64)
    (hi : i < height) :
    (row_hit mem address x y height i q ↔
      (col_hit x (chip8_mem_read mem (address + i)) ((y + i) * 64 + x) 0 q ∨
        row_hit mem address x y height (i + 1) q)) ∧
    ¬ (col_hit x (chip8_mem_read mem (address + i)) ((y + i) * 64 + x) 0 q ∧
        row_hit mem address x y height (i + 1) q) := by
  by_cases hq : q / 64 = y + i
  · have h1 : ¬ row_hit mem address x y height (i + 1) q := by unfold row_hit; omega
    have h2 : row_hit mem address x y height i q ↔
        col_hit x (chip8_mem_read mem (address + i)) ((y + i) * 64 + x) 0 q := by
      unfold row_hit
      have e1 : q / 64 - y = i := by omega
      rw [e1, hq]
      constructor
      · rintro ⟨_, _, h⟩; exact h
      · intro h; exact ⟨le_refl _, by omega, h⟩
    exact ⟨by rw [h2]; simp [h1], fun h => h1 h.2⟩
  · have h1 : ¬ col_hit x (chip8_mem_read mem (address + i)) ((y + i) * 64 + x) 0 q := by
      unfold col_hit
      omega
    have h2 : row_hit mem address x y height (i + 1) q ↔
        row_hit mem address x y height i q := by
      unfold row_hit
      constructor
      · rintro ⟨a, b⟩; exact ⟨by omega, b⟩
      · rintro ⟨a, b⟩; exact ⟨by omega, b⟩
    exact ⟨by rw [h2]; simp [h1], fun h => h1 h.1⟩

/-- Collision flag of the outer loop. -/
theorem draw_sprite_rows_collision (mem : Nat → Nat) (address x y height : Nat) (hx : x < 64)
    (hy : y + height ≤ 32) :
    ∀ fuel i (st st2 : (Nat → Nat) × Nat), i ≤ height →
      draw_sprite_rows mem address x height fuel i ((y + i) * 64 + x) st = some st2 →
        ((∃ q, row_hit mem address x y height i q ∧ st.1 q ^^^ PIXEL_SET = 0) → st2.2 = 1) ∧
        ((∀ q, row_hit mem address x y height i q → st.1 q ^^^ PIXEL_SET ≠ 0) →
          st2.2 = st.2) := by
  intro fuel
  induction fuel with
  | zero =>
    intro i st st2 hi hrun
    by_cases hg : i < height
    · simp [draw_sprite_rows, hg] at hrun
    · have hno : ∀ q, ¬ row_hit mem address x y height i q := by
        intro q; unfold row_hit; omega
      simp only [draw_sprite_rows, hg, if_false, Option.some.injEq] at hrun
      subst hrun
      exact ⟨fun ⟨q, hq, _⟩ => absurd hq (hno q), fun _ => rfl⟩
  | succ fuel ih =>
    intro i st st2 hi hrun
    by_cases hg : i < height
    · obtain ⟨st1, hcols, hpix1⟩ := draw_sprite_cols_spec x (chip8_mem_read mem (address + i))
        ((y + i) * 64 + x) (by omega) 8 0 st (by omega)
      obtain ⟨cA, cB⟩ := draw_sprite_cols_collision x (chip8_mem_read mem (address + i))
        ((y + i) * 64 + x) 8 0 st st1 hcols
      have hu : u8 (i + 1) = i + 1 := by unfold u8; omega
      have hptr : (y + i) * 64 + x + 64 = (y + (i + 1)) * 64 + x := by omega
      have hrows : draw_sprite_rows mem address x height fuel (i + 1)
          ((y + (i + 1)) * 64 + x) st1 = some st2 := by
        simpa only [draw_sprite_rows, hg, if_true, hcols, hu, hptr] using hrun
      obtain ⟨rA, rB⟩ := ih (i + 1) st1 st2 (by omega) hrows
      have hkeep : ∀ q, row_hit mem address x y height (i + 1) q → st1.1 q = st.1 q := by
        intro q hq
        have hn : ¬ col_hit x (chip8_mem_read mem (address + i)) ((y + i) * 64 + x) 0 q :=
          fun hc => (row_hit_split mem address x y height i q hx hg).2 ⟨hc, hq⟩
        rw [hpix1 q, if_neg hn]
      constructor
      · rintro ⟨q, hq, hz⟩
        by_cases hex : ∃ q2, row_hit mem address x y height (i + 1) q2 ∧
            st1.1 q2 ^^^ PIXEL_SET = 0
        · exact rA hex
        · have hall : ∀ q2, row_hit mem address x y height (i + 1) q2 →
              st1.1 q2 ^^^ PIXEL_SET ≠ 0 := fun q2 h2 h0 => hex ⟨q2, h2, h0⟩
          rw [rB hall]
          rcases (row_hit_split mem address x y height i q hx hg).1.1 hq with hc | hr
          · exact cA ⟨q, hc, hz⟩
          · exact absurd (by rw [hkeep q hr]; exact hz) (hall q hr)
      · intro hall
        have h1 : st1.2 = st.2 := cB fun q hc =>
          hall q ((row_hit_split mem address x y height i q hx hg).1.2 (Or.inl hc))
        have h2 : st2.2 = st1.2 := rB fun q hr => by
          rw [hkeep q hr]
          exact hall q ((row_hit_split mem address x y height i q hx hg).1.2 (Or.inr hr))
        rw [h2, h1]
    · have hno : ∀ q, ¬ row_hit mem address x y height i q := by
        intro q; unfold row_hit; omega
      simp only [draw_sprite_rows, hg, if_false, Option.some.injEq] at hrun
      subst hrun
      exact ⟨fun ⟨q, hq, _⟩ => absurd hq (hno q), fun _ => rfl⟩

/-- Summary of `chip8_draw_sprite`: it returns; every toggled pixel lies in
the framebuffer and is XORed with `PIXEL_SET` once, every other pixel is kept;
the flag is 0 or 1, and it is 1 exactly when a toggled pixel ends at 0. -/
theorem chip8_draw_sprite_spec (mem fb : Nat → Nat) (address x y height : Nat) :
    ∃ fb1 c, chip8_draw_sprite mem fb address x y height = some (fb1, c) ∧
      (∀ q, fb1 q = if sprite_hit mem address x y height q then fb q ^^^ PIXEL_SET else fb q) ∧
      (c = 0 ∨ c = 1) ∧
      (c = 1 ↔ ∃ q, sprite_hit mem address x y height q ∧ fb q ^^^ PIXEL_SET = 0) ∧
      (∀ q, sprite_hit mem address x y height q → q < 64 * 32) := by
  obtain ⟨st1, hrun, hpix⟩ := draw_sprite_rows_spec mem address (x % 64) (y % 32)
    (min height (32 - y % 32)) (by omega) (by omega) 256 0 (fb, 0) (by omega) (by omega)
  obtain ⟨hA, hB⟩ := draw_sprite_rows_collision mem address (x % 64) (y % 32)
    (min height (32 - y % 32)) (by omega) (by omega) 256 0 (fb, 0) st1 (by omega) hrun
  have hcases : (∃ q, sprite_hit mem address x y height q ∧ fb q ^^^ PIXEL_SET = 0) ∨
      ∀ q, sprite_hit mem address x y height q → fb q ^^^ PIXEL_SET ≠ 0 := by
    by_cases hex : ∃ q, sprite_hit mem address x y height q ∧ fb q ^^^ PIXEL_SET = 0
    · exact Or.inl hex
    · exact Or.inr fun q hq h0 => hex ⟨q, hq, h0⟩
  refine ⟨st1.1, st1.2, by rw [chip8_draw_sprite_eq]; exact hrun, hpix, ?_, ?_, ?_⟩
  · rcases hcases with hex | hall
    · exact Or.inr (hA hex)
    · exact Or.inl (hB hall)
  · constructor
    · intro h1
      rcases hcases with hex | hall
      · exact hex
      · have h0 : st1.2 = 0 := hB hall
        omega
    · intro hex
      exact hA hex
  · intro q hq
    unfold sprite_hit row_hit at hq
    omega

theorem pixel_set_ne_zero (v : Nat) : v ^^^ PIXEL_SET ≠ v := by
  intro h
  have h2 : v ^^^ PIXEL_SET ^^^ v = 0 := by rw [h, Nat.xor_self]
  rw [Nat.xor_comm, ← Nat.xor_assoc, Nat.xor_self, Nat.zero_xor] at h2
  simp [PIXEL_SET] at h2

/-- The word DXYN reaches `nibble_D` with `X`, `Y` and `N` decoded. -/
theorem exec_family_D (s : Machine) (X Y N : Nat) (hX : X ≤ 15) (hY : Y ≤ 15) (hN : N ≤ 15)
    (hw : fetch s.mem s.program_counter = 0xD000 + 0x100 * X + 0x10 * Y + N) :
    chip8_execute_instruction s = nibble_D (dispatch_state s) ∧
    (dispatch_state s).opcode.X = X ∧ (dispatch_state s).opcode.Y = Y ∧
    (dispatch_state s).opcode.N = N := by
  have hn : fetch s.mem s.program_counter / 4096 % 16 = 0xD := by omega
  refine ⟨?_, by rw [dispatch_X]; omega, by rw [dispatch_Y]; omega, by rw [dispatch_N]; omega⟩
  rw [exec_eq_dispatch, hn]
  rfl

/-- The step DXYN computes: the framebuffer and flag of `chip8_draw_sprite`
called with `I`, `VX`, `VY` and `N`. -/
theorem exec_DXYN (s : Machine) (X Y N : Nat) (hX : X ≤ 15) (hY : Y ≤ 15) (hN : N ≤ 15)
    (hw : fetch s.mem s.program_counter = 0xD000 + 0x100 * X + 0x10 * Y + N)
    (fb1 : Nat → Nat) (c : Nat)
    (hd : chip8_draw_sprite s.mem s.framebuffer s.I (s.V X) (s.V Y) N = some (fb1, c)) :
    chip8_execute_instruction s = some
      { dispatch_state s with framebuffer := fb1, V := arr_set s.V 0xF (u8 c) } := by
  obtain ⟨he, hx, hy, hn⟩ := exec_family_D s X Y N hX hY hN hw
  have hd2 : chip8_draw_sprite (dispatch_state s).mem (dispatch_state s).framebuffer
      (dispatch_state s).I ((dispatch_state s).V X) ((dispatch_state s).V Y) N
      = some (fb1, c) := hd
  rw [he]
  simp only [nibble_D, hx, hy, hn, hd2]
  rfl

/-- C11: for every memory, framebuffer, address, `x`, `y` and `height`,
`chip8_draw_sprite` returns 0 or 1, and it returns 1 exactly when some pixel
that was set (non-zero) before the call is 0 after it; the step DXYN stores
that value in `VF` and the new framebuffer in the machine. -/
theorem collision_flag (mem fb : Nat → Nat) (address x y height : Nat)
    (s : Machine) (X Y N : Nat) (hX : X ≤ 15) (hY : Y ≤ 15) (hN : N ≤ 15)
    (hw : fetch s.mem s.program_counter = 0xD000 + 0x100 * X + 0x10 * Y + N) :
    (∃ fb1 c, chip8_draw_sprite mem fb address x y height = some (fb1, c) ∧
      (c = 0 ∨ c = 1) ∧
      (c = 1 ↔ ∃ q, q < 64 * 32 ∧ fb q ≠ 0 ∧ fb1 q = 0)) ∧
    (∃ fb1 c s1, chip8_draw_sprite s.mem s.framebuffer s.I (s.V X) (s.V Y) N = some (fb1, c) ∧
      chip8_execute_instruction s = some s1 ∧ s1.V 0xF = c ∧ s1.framebuffer = fb1) := by
  constructor
  · obtain ⟨fb1, c, hrun, hpix, h01, hc, hin⟩ :=
      chip8_draw_sprite_spec mem fb address x y height
    refine ⟨fb1, c, hrun, h01, ?_⟩
    rw [hc]
    constructor
    · rintro ⟨q, hq, hz⟩
      refine ⟨q, hin q hq, ?_, by rw [hpix q, if_pos hq]; exact hz⟩
      intro h0
      rw [h0, Nat.zero_xor] at hz
      simp [PIXEL_SET] at hz
    · rintro ⟨q, _, hset, hoff⟩
      have hq : sprite_hit mem address x y height q := by
        by_contra hn
        rw [hpix q, if_neg hn] at hoff
        exact hset hoff
      refine ⟨q, hq, ?_⟩
      rw [hpix q, if_pos hq] at hoff
      exact hoff
  · obtain ⟨fb1, c, hrun, _, h01, _, _⟩ :=
      chip8_draw_sprite_spec s.mem s.framebuffer s.I (s.V X) (s.V Y) N
    refine ⟨fb1, c, _, hrun, exec_DXYN s X Y N hX hY hN hw fb1 c hrun, ?_, rfl⟩
    show arr_set s.V 0xF (u8 c) 0xF = c
    rcases h01 with h | h <;> simp [arr_set, u8, h]

theorem collision_flag_witness :
    (∃ fb1 c, chip8_draw_sprite (fun _ => 0xF0) (arr_of [(0, 0xffffffff)]) 0 0 0 1
        = some (fb1, c) ∧ c = 1) ∧
    (∃ fb1 c s1,
      chip8_draw_sprite
        (machine_of (arr_of [(0x200, 0xD0), (0x201, 0x11)]) (fun _ => 0) (fun _ => 0)).mem
        (machine_of (arr_of [(0x200, 0xD0), (0x201, 0x11)]) (fun _ => 0) (fun _ => 0)).framebuffer
        0x200 0 0 1 = some (fb1, c) ∧
      chip8_execute_instruction
        (machine_of (arr_of [(0x200, 0xD0), (0x201, 0x11)]) (fun _ => 0) (fun _ => 0))
        = some s1 ∧ s1.V 0xF = c ∧ s1.framebuffer = fb1) := by
  obtain ⟨⟨fb1, c, h1, _, h3⟩, h4⟩ := collision_flag (fun _ => 0xF0)
    (arr_of [(0, 0xffffffff)]) 0 0 0 1
    (machine_of (arr_of [(0x200, 0xD0), (0x201, 0x11)]) (fun _ => 0) (fun _ => 0))
    0 1 1 (by decide) (by decide) (by decide) (by decide)
  refine ⟨⟨fb1, c, h1, h3.2 ⟨0, by decide, by decide, ?_⟩⟩, h4⟩
  have h5 : (chip8_draw_sprite (fun _ => 0xF0) (arr_of [(0, 0xffffffff)]) 0 0 0 1).map
      (fun r => r.1 0) = some 0 := by decide
  rw [h1] at h5
  simpa using h5

/-! ## C12 and C20: drawing the same sprite twice -/

/-- Two draws with the same arguments: both return, and the second restores
every framebuffer entry. -/
theorem draw_twice (mem fb : Nat → Nat) (address x y height : Nat) :
    ∃ fb1 c1 fb2 c2, chip8_draw_sprite mem fb address x y height = some (fb1, c1) ∧
      chip8_draw_sprite mem fb1 address x y height = some (fb2, c2) ∧
      (∀ q, fb2 q = fb q) ∧
      (c1 = 1 ↔ ∃ q, sprite_hit mem address x y height q ∧ fb q ^^^ PIXEL_SET = 0) ∧
      (c2 = 0 ∨ c2 = 1) ∧
      (c2 = 1 ↔ ∃ q, sprite_hit mem address x y height q ∧ fb q = 0) ∧
      (∀ q, fb1 q = if sprite_hit mem address x y height q then fb q ^^^ PIXEL_SET else fb q) ∧
      (∀ q, sprite_hit mem address x y height q → q < 64 * 32) := by
  obtain ⟨fb1, c1, hrun1, hpix1, _, hc1, hin⟩ :=
    chip8_draw_sprite_spec mem fb address x y height
  obtain ⟨fb2, c2, hrun2, hpix2, h01, hc2, _⟩ :=
    chip8_draw_sprite_spec mem fb1 address x y height
  refine ⟨fb1, c1, fb2, c2, hrun1, hrun2, ?_, hc1, h01, ?_, hpix1, hin⟩
  · intro q
    rw [hpix2 q, hpix1 q]
    by_cases hq : sprite_hit mem address x y height q
    · simp only [hq, if_true]
      exact Nat.xor_cancel_right _ _
    · simp only [hq, if_false]
  · rw [hc2]
    constructor
    · rintro ⟨q, hq, hz⟩
      refine ⟨q, hq, ?_⟩
      rw [hpix1 q, if_pos hq, Nat.xor_cancel_right] at hz
      exact hz
    · rintro ⟨q, hq, hz⟩
      refine ⟨q, hq, ?_⟩
      rw [hpix1 q, if_pos hq, Nat.xor_cancel_right]
      exact hz

/-- C12 (counterexample): a sprite of five all-zero rows drawn twice at the
origin of a cleared framebuffer: both draws return the flag 0. -/
theorem blank_sprite_twice_no_collision :
    (chip8_draw_sprite (fun _ => 0) (fun _ => 0) 0x300 0 0 5).map (fun r => r.2) = some 0 ∧
    ((chip8_draw_sprite (fun _ => 0) (fun _ => 0) 0x300 0 0 5).bind
      (fun r => chip8_draw_sprite (fun _ => 0) r.1 0x300 0 0 5)).map (fun r => r.2) = some 0 := by
  constructor <;> decide

/-- C12 (amended): starting from a cleared framebuffer, drawing the same
sprite twice at the same place returns both times, leaves every pixel off
again, and the second draw reports 1 exactly when the first draw turned some
pixel on, 0 otherwise; the first draw reports 0. -/
theorem draw_twice_from_clear (mem fb : Nat → Nat) (address x y height : Nat)
    (hclear : ∀ q, q < 64 * 32 → fb q = 0) :
    ∃ fb1 c1 fb2 c2, chip8_draw_sprite mem fb address x y height = some (fb1, c1) ∧
      chip8_draw_sprite mem fb1 address x y height = some (fb2, c2) ∧
      (∀ q, q < 64 * 32 → fb2 q = 0) ∧
      c1 = 0 ∧ (c2 = 0 ∨ c2 = 1) ∧
      (c2 = 1 ↔ ∃ q, q < 64 * 32 ∧ fb1 q ≠ 0) := by
  obtain ⟨fb1, c1, fb2, c2, h1, h2, hback, hc1, h01, hc2, hpix, hin⟩ :=
    draw_twice mem fb address x y height
  refine ⟨fb1, c1, fb2, c2, h1, h2, fun q hq => by rw [hback q]; exact hclear q hq, ?_, h01, ?_⟩
  · have hnot : ¬ c1 = 1 := by
      rw [hc1]
      rintro ⟨q, hq, hz⟩
      rw [hclear q (hin q hq), Nat.zero_xor] at hz
      simp [PIXEL_SET] at hz
    obtain ⟨_, c, h1c, _, h01c, _, _⟩ := chip8_draw_sprite_spec mem fb address x y height
    rw [h1] at h1c
    simp only [Option.some.injEq, Prod.mk.injEq] at h1c
    obtain ⟨_, hc⟩ := h1c
    subst hc
    omega
  · rw [hc2]
    constructor
    · rintro ⟨q, hq, _⟩
      refine ⟨q, hin q hq, ?_⟩
      rw [hpix q, if_pos hq, hclear q (hin q hq), Nat.zero_xor]
      simp [PIXEL_SET]
    · rintro ⟨q, hq, hne⟩
      have hhit : sprite_hit mem address x y height q := by
        by_contra hn
        rw [hpix q, if_neg hn] at hne
        exact hne (hclear q hq)
      exact ⟨q, hhit, hclear q hq⟩

theorem draw_twice_from_clear_witness :
    ∃ fb1 c1 fb2 c2,
      chip8_draw_sprite (fun _ => 0xF0) (fun _ => 0) 0x300 0 0 1 = some (fb1, c1) ∧
      chip8_draw_sprite (fun _ => 0xF0) fb1 0x300 0 0 1 = some (fb2, c2) ∧
      fb2 0 = 0 ∧ c1 = 0 ∧ c2 = 1 := by
  obtain ⟨fb1, c1, fb2, c2, h1, h2, h3, h4, _, h6⟩ :=
    draw_twice_from_clear (fun _ => 0xF0) (fun _ => 0) 0x300 0 0 1 (fun _ _ => rfl)
  refine ⟨fb1, c1, fb2, c2, h1, h2, h3 0 (by decide), h4, h6.2 ⟨0, by decide, ?_⟩⟩
  have h5 : (chip8_draw_sprite (fun _ => 0xF0) (fun _ => 0) 0x300 0 0 1).map
      (fun r => r.1 0) = some 0xffffffff := by decide
  rw [h1] at h5
  intro h0
  simp [h0] at h5

/-- C20: for every framebuffer, memory, address, `x`, `y` and `height`, two
calls of `chip8_draw_sprite` with the same arguments return and leave the
framebuffer exactly as it was; and the step DXYN leaves memory unchanged. -/
theorem draw_sprite_involution (mem fb : Nat → Nat) (address x y height : Nat)
    (s : Machine) (X Y N : Nat) (hX : X ≤ 15) (hY : Y ≤ 15) (hN : N ≤ 15)
    (hw : fetch s.mem s.program_counter = 0xD000 + 0x100 * X + 0x10 * Y + N) :
    (∃ fb1 c1 fb2 c2, chip8_draw_sprite mem fb address x y height = some (fb1, c1) ∧
      chip8_draw_sprite mem fb1 address x y height = some (fb2, c2) ∧ fb2 = fb) ∧
    (∃ s1, chip8_execute_instruction s = some s1 ∧ s1.mem = s.mem) := by
  constructor
  · obtain ⟨fb1, c1, fb2, c2, h1, h2, hback, _⟩ := draw_twice mem fb address x y height
    exact ⟨fb1, c1, fb2, c2, h1, h2, funext hback⟩
  · obtain ⟨fb1, c, hrun, _⟩ :=
      chip8_draw_sprite_spec s.mem s.framebuffer s.I (s.V X) (s.V Y) N
    exact ⟨_, exec_DXYN s X Y N hX hY hN hw fb1 c hrun, rfl⟩

theorem draw_sprite_involution_witness :
    (∃ fb1 c1 fb2 c2,
      chip8_draw_sprite (fun _ => 0xA5) (arr_of [(0, 0xffffffff), (70, 0xffffffff)]) 0x300 62 31 4
        = some (fb1, c1) ∧
      chip8_draw_sprite (fun _ => 0xA5) fb1 0x300 62 31 4 = some (fb2, c2) ∧
      fb2 = arr_of [(0, 0xffffffff), (70, 0xffffffff)]) ∧
    (∃ s1, chip8_execute_instruction
        (machine_of (arr_of [(0x200, 0xD0), (0x201, 0x11)]) (fun _ => 0) (fun _ => 0)) = some s1 ∧
      s1.mem = arr_of [(0x200, 0xD0), (0x201, 0x11)]) :=
  draw_sprite_involution (fun _ => 0xA5) (arr_of [(0, 0xffffffff), (70, 0xffffffff)]) 0x300 62 31 4
    (machine_of (arr_of [(0x200, 0xD0), (0x201, 0x11)]) (fun _ => 0) (fun _ => 0))
    0 1 1 (by decide) (by decide) (by decide) (by decide)

/-! ## C15: masked memory access -/

theorem chip8_mem_write_mod (mem : Nat → Nat) (a v : Nat) :
    chip8_mem_write mem a v = arr_set mem (a % 4096) (v % 256) := by
  have h : u16 a &&& MEMORY_MASK = a % 4096 := by
    show (a % 65536) &&& 0xFFF = a % 4096
    rw [and_0xFFF]
    omega
  simp only [chip8_mem_write, h, u8]

/-- C15: the index `chip8_mem_read` and `chip8_mem_write` use is below
`MEMORY_SIZE = 4096`; `chip8_mem_read a` is the byte at `a mod 4096`; after
`chip8_mem_write a v` with `v` a byte, reading any address congruent to `a`
modulo 4096 gives `v`, and the byte at every other index is unchanged. -/
theorem mem_access_masked (mem : Nat → Nat) (a v : Nat) (hv : v < 256) :
    u16 a &&& MEMORY_MASK < MEMORY_SIZE ∧
    u16 a &&& MEMORY_MASK = a % 4096 ∧
    chip8_mem_read mem a = mem (a % 4096) ∧
    (∀ b, b % 4096 = a % 4096 → chip8_mem_read (chip8_mem_write mem a v) b = v) ∧
    (∀ k, k ≠ a % 4096 → chip8_mem_write mem a v k = mem k) := by
  have h : u16 a &&& MEMORY_MASK = a % 4096 := by
    show (a % 65536) &&& 0xFFF = a % 4096
    rw [and_0xFFF]
    omega
  refine ⟨?_, h, chip8_mem_read_mod mem a, ?_, ?_⟩
  · rw [h]
    show a % 4096 < 4096
    omega
  · intro b hb
    rw [chip8_mem_read_mod, chip8_mem_write_mod, hb]
    simp only [arr_set, if_true]
    omega
  · intro k hk
    rw [chip8_mem_write_mod]
    simp only [arr_set, hk, if_false]

theorem mem_access_masked_witness :
    chip8_mem_read (arr_of [(0x234, 7)]) 0xF234 = 7 ∧
    chip8_mem_read (chip8_mem_write (fun _ => 0) 0x1005 9) 0x5 = 9 ∧
    chip8_mem_write (fun _ => 0) 0x1005 9 6 = 0 :=
  have h := mem_access_masked (fun _ => 0) 0x1005 9 (by decide)
  ⟨((mem_access_masked (arr_of [(0x234, 7)]) 0xF234 0 (by decide)).2.2.1).trans (by decide),
    h.2.2.2.1 0x5 (by decide), h.2.2.2.2 6 (by decide)⟩

/-! ## Dispatch of the family F -/

/-- The word FXNN reaches entry `NN` of the table `opcodeF`, with `X`
decoded. -/
theorem exec_family_F (s : Machine) (X NN : Nat) (hX : X ≤ 15) (hNN : NN ≤ 255)
    (hw : fetch s.mem s.program_counter = 0xF000 + 0x100 * X + NN) :
    chip8_execute_instruction s = call_ptr (opcodeF NN) (dispatch_state s) ∧
    (dispatch_state s).opcode.X = X := by
  have hn : fetch s.mem s.program_counter / 4096 % 16 = 0xF := by omega
  have hNd : (dispatch_state s).opcode.NN = NN := by rw [dispatch_NN]; omega
  refine ⟨?_, by rw [dispatch_X]; omega⟩
  rw [exec_eq_dispatch, hn]
  simp only [opcode_ptr, call_ptr, nibble_F, hNd]
  simp [hNN]

/-! ## C13: FX33 -/

/-- C13: FX33 with `VX` a byte writes `VX / 100`, `(VX / 10) mod 10` and
`VX mod 10` to memory at `I`, `I + 1`, `I + 2` (indices modulo 4096); the
three values are decimal digits with `100 h + 10 t + o = VX`; every other
memory byte, the V registers and `I` are unchanged. -/
theorem bcd_fx33 (s : Machine) (X : Nat) (hX : X ≤ 15) (hV : s.V X < 256)
    (hw : fetch s.mem s.program_counter = 0xF000 + 0x100 * X + 0x33) :
    ∃ s1, chip8_execute_instruction s = some s1 ∧
      s1.mem (s.I % 4096) = s.V X / 100 ∧
      s1.mem ((s.I + 1) % 4096) = s.V X / 10 % 10 ∧
      s1.mem ((s.I + 2) % 4096) = s.V X % 10 ∧
      s.V X / 100 ≤ 9 ∧ s.V X / 10 % 10 ≤ 9 ∧ s.V X % 10 ≤ 9 ∧
      100 * (s.V X / 100) + 10 * (s.V X / 10 % 10) + s.V X % 10 = s.V X ∧
      (∀ k, k ≠ s.I % 4096 → k ≠ (s.I + 1) % 4096 → k ≠ (s.I + 2) % 4096 →
        s1.mem k = s.mem k) ∧
      s1.V = s.V ∧ s1.I = s.I := by
  obtain ⟨he, hx⟩ := exec_family_F s X 0x33 hX (by omega) hw
  have hVd : (dispatch_state s).V = s.V := rfl
  have hId : (dispatch_state s).I = s.I := rfl
  have hmd : (dispatch_state s).mem = s.mem := rfl
  rw [he]
  simp only [call_ptr, opcodeF, opcodeF_33, set_BCD, hx, hVd, hId, hmd, chip8_mem_write_mod]
  refine ⟨_, rfl, ?_, ?_, ?_, by omega, by omega, by omega, by omega, ?_, rfl, rfl⟩
  · have h1 : s.I % 4096 ≠ (s.I + 1) % 4096 := by omega
    have h2 : s.I % 4096 ≠ (s.I + 2) % 4096 := by omega
    simp only [arr_set, h1, h2, if_false, if_true]
    omega
  · have h2 : (s.I + 1) % 4096 ≠ (s.I + 2) % 4096 := by omega
    simp only [arr_set, h2, if_false, if_true]
    omega
  · simp only [arr_set, if_true]
    omega
  · intro k h0 h1 h2
    simp only [arr_set, h0, h1, h2, if_false]

theorem bcd_fx33_witness :
    ∃ s1, chip8_execute_instruction
        (machine_of (arr_of [(0x200, 0xF4), (0x201, 0x33)]) (arr_of [(4, 137)]) (fun _ => 0))
        = some s1 ∧
      s1.mem 0x200 = 1 ∧ s1.mem 0x201 = 3 ∧ s1.mem 0x202 = 7 := by
  obtain ⟨s1, h, h1, h2, h3, _⟩ := bcd_fx33
    (machine_of (arr_of [(0x200, 0xF4), (0x201, 0x33)]) (arr_of [(4, 137)]) (fun _ => 0))
    4 (by decide) (by decide) (by decide)
  exact ⟨s1, h, h1, h2, h3⟩

/-! ## C16: FX55 and FX65 -/

/-- The store loop of FX55 entered at `i`: it returns, writes `V[j]` at
`(I + j) mod 4096` for `i ≤ j ≤ X`, and changes nothing else. -/
theorem opcodeF_55_loop_spec :
    ∀ fuel (s : Machine) i, s.opcode.X ≤ 15 → i ≤ s.opcode.X + 1 → s.opcode.X + 1 - i ≤ fuel →
      ∃ s1, opcodeF_55_loop s fuel i = some s1 ∧
        (∀ j, i ≤ j → j ≤ s.opcode.X → s1.mem ((s.I + j) % 4096) = s.V j % 256) ∧
        (∀ a, (∀ j, i ≤ j → j ≤ s.opcode.X → a ≠ (s.I + j) % 4096) → s1.mem a = s.mem a) ∧
        s1.V = s.V ∧ s1.I = s.I ∧ s1.stack = s.stack ∧
        s1.stack_pointer = s.stack_pointer ∧ s1.program_counter = s.program_counter ∧
        s1.opcode = s.opcode ∧ s1.framebuffer = s.framebuffer := by
  intro fuel
  induction fuel with
  | zero =>
    intro s i hX hi hf
    have hg : ¬ i ≤ s.opcode.X := by omega
    refine ⟨s, by simp [opcodeF_55_loop, hg], ?_, fun _ _ => rfl, rfl, rfl, rfl, rfl, rfl, rfl, rfl⟩
    intro j h1 h2
    omega
  | succ fuel ih =>
    intro s i hX hi hf
    by_cases hg : i ≤ s.opcode.X
    · have hu : u8 (i + 1) = i + 1 := by unfold u8; omega
      obtain ⟨s1, hrun, hw, hkeep, h1, h2, h3, h4, h5, h6, h7⟩ :=
        ih { s with mem := chip8_mem_write s.mem (s.I + i) (s.V i) } (i + 1) hX
          (by show i + 1 ≤ s.opcode.X + 1; omega) (by show s.opcode.X + 1 - (i + 1) ≤ fuel; omega)
      refine ⟨s1, by simp only [opcodeF_55_loop, hg, if_true, hu]; exact hrun,
        ?_, ?_, h1, h2, h3, h4, h5, h6, h7⟩
      · intro j hj1 hj2
        by_cases hji : j = i
        · subst hji
          rw [hkeep ((s.I + j) % 4096) (by
            intro j2 h21 h22
            show (s.I + j) % 4096 ≠ (s.I + j2) % 4096
            have : j2 ≤ s.opcode.X := h22
            omega)]
          show chip8_mem_write s.mem (s.I + j) (s.V j) ((s.I + j) % 4096) = _
          rw [chip8_mem_write_mod]
          simp [arr_set]
        · exact hw j (by omega) hj2
      · intro a ha
        rw [hkeep a (fun j h1 h2 => ha j (by omega) h2)]
        show chip8_mem_write s.mem (s.I + i) (s.V i) a = _
        rw [chip8_mem_write_mod]
        have := ha i (le_refl _) hg
        simp [arr_set, this]
    · refine ⟨s, by simp [opcodeF_55_loop, hg], ?_, fun _ _ => rfl,
        rfl, rfl, rfl, rfl, rfl, rfl, rfl⟩
      intro j h1 h2
      omega

/-- The load loop of FX65 entered at `i`: it returns, loads `V[j]` from
`(I + j) mod 4096` for `i ≤ j ≤ X`, and changes nothing else. -/
theorem opcodeF_65_loop_spec :
    ∀ fuel (s : Machine) i, s.opcode.X ≤ 15 → i ≤ s.opcode.X + 1 → s.opcode.X + 1 - i ≤ fuel →
      ∃ s1, opcodeF_65_loop s fuel i = some s1 ∧
        (∀ j, i ≤ j → j ≤ s.opcode.X → s1.V j = s.mem ((s.I + j) % 4096)) ∧
        (∀ k, (k < i ∨ s.opcode.X < k) → s1.V k = s.V k) ∧
        s1.mem = s.mem ∧ s1.I = s.I ∧ s1.stack = s.stack ∧
        s1.stack_pointer = s.stack_pointer ∧ s1.program_counter = s.program_counter ∧
        s1.opcode = s.opcode ∧ s1.framebuffer = s.framebuffer := by
  intro fuel
  induction fuel with
  | zero =>
    intro s i hX hi hf
    have hg : ¬ i ≤ s.opcode.X := by omega
    refine ⟨s, by simp [opcodeF_65_loop, hg], ?_, fun _ _ => rfl, rfl, rfl, rfl, rfl, rfl, rfl, rfl⟩
    intro j h1 h2
    omega
  | succ fuel ih =>
    intro s i hX hi hf
    by_cases hg : i ≤ s.opcode.X
    · have hu : u8 (i + 1) = i + 1 := by unfold u8; omega
      obtain ⟨s1, hrun, hld, hkeep, h1, h2, h3, h4, h5, h6, h7⟩ :=
        ih { s with V := arr_set s.V i (chip8_mem_read s.mem (s.I + i)) } (i + 1) hX
          (by show i + 1 ≤ s.opcode.X + 1; omega) (by show s.opcode.X + 1 - (i + 1) ≤ fuel; omega)
      refine ⟨s1, by simp only [opcodeF_65_loop, hg, if_true, hu]; exact hrun,
        ?_, ?_, h1, h2, h3, h4, h5, h6, h7⟩
      · intro j hj1 hj2
        by_cases hji : j = i
        · subst hji
          rw [hkeep j (Or.inl (by omega))]
          show arr_set s.V j (chip8_mem_read s.mem (s.I + j)) j = _
          rw [chip8_mem_read_mod]
          simp [arr_set]
        · exact hld j (by omega) hj2
      · intro k hk
        rw [hkeep k (by rcases hk with h | h; exact Or.inl (by omega); exact Or.inr h)]
        show arr_set s.V i (chip8_mem_read s.mem (s.I + i)) k = _
        have : k ≠ i := by omega
        simp [arr_set, this]
    · refine ⟨s, by simp [opcodeF_65_loop, hg], ?_, fun _ _ => rfl,
        rfl, rfl, rfl, rfl, rfl, rfl, rfl⟩
      intro j h1 h2
      omega

/-- C16: FX55 with `V0..VX` bytes stores `Vk` at `memory[(I + k) mod 4096]`
for `k = 0..X` and changes no other memory byte, no register and not `I`;
FX65 with the same `X`, run on the resulting state with its registers
replaced by any `V2` (and the program counter placed on a word FX65), yields
`Vk = s.Vk` for `k ≤ X` and `Vk = V2 k` for `k > X`. -/
theorem store_load_roundtrip (s : Machine) (X : Nat) (hX : X ≤ 15)
    (hV : ∀ k, k ≤ X → s.V k < 256)
    (hw : fetch s.mem s.program_counter = 0xF000 + 0x100 * X + 0x55) :
    ∃ s1, chip8_execute_instruction s = some s1 ∧
      (∀ k, k ≤ X → s1.mem ((s.I + k) % 4096) = s.V k) ∧
      (∀ a, (∀ k, k ≤ X → a ≠ (s.I + k) % 4096) → s1.mem a = s.mem a) ∧
      s1.V = s.V ∧ s1.I = s.I ∧
      ∀ (V2 : Nat → Nat) (pc2 : Nat), fetch s1.mem pc2 = 0xF000 + 0x100 * X + 0x65 →
        ∃ t1, chip8_execute_instruction { s1 with V := V2, program_counter := pc2 } = some t1 ∧
          (∀ k, k ≤ X → t1.V k = s.V k) ∧ (∀ k, X < k → t1.V k = V2 k) := by
  obtain ⟨he, hx⟩ := exec_family_F s X 0x55 hX (by omega) hw
  obtain ⟨s1, hrun, hst, hkeep, h1, h2, _⟩ :=
    opcodeF_55_loop_spec 256 (dispatch_state s) 0 (by rw [hx]; exact hX) (by omega)
      (by rw [hx]; omega)
  rw [hx] at hst hkeep
  refine ⟨s1, by rw [he]; exact hrun, ?_, ?_, h1, h2, ?_⟩
  · intro k hk
    exact (hst k (Nat.zero_le _) hk).trans (Nat.mod_eq_of_lt (hV k hk))
  · intro a ha
    exact hkeep a fun j _ hj => ha j hj
  · intro V2 pc2 hw2
    obtain ⟨he2, hx2⟩ := exec_family_F { s1 with V := V2, program_counter := pc2 } X 0x65 hX
      (by omega) hw2
    obtain ⟨t1, hrun2, hld, hkeep2, _⟩ :=
      opcodeF_65_loop_spec 256 (dispatch_state { s1 with V := V2, program_counter := pc2 }) 0
        (by rw [hx2]; exact hX) (by omega) (by rw [hx2]; omega)
    rw [hx2] at hld hkeep2
    refine ⟨t1, by rw [he2]; exact hrun2, ?_, ?_⟩
    · intro k hk
      rw [hld k (Nat.zero_le _) hk]
      show s1.mem ((s1.I + k) % 4096) = _
      rw [h2]
      exact (hst k (Nat.zero_le _) hk).trans (Nat.mod_eq_of_lt (hV k hk))
    · intro k hk
      exact hkeep2 k (Or.inr hk)

theorem store_load_roundtrip_witness :
    ∃ s1 t1,
      chip8_execute_instruction
        { machine_of (arr_of [(0x200, 0xF2), (0x201, 0x55), (0x202, 0xF2), (0x203, 0x65)])
            (arr_of [(0, 11), (1, 22), (2, 33)]) (fun _ => 0) with I := 0x300 } = some s1 ∧
      s1.mem 0x300 = 11 ∧ s1.mem 0x302 = 33 ∧
      chip8_execute_instruction { s1 with V := fun _ => 9, program_counter := 0x202 } = some t1 ∧
      t1.V 0 = 11 ∧ t1.V 2 = 33 ∧ t1.V 3 = 9 := by
  obtain ⟨s1, h1, h2, _, _, _, h6⟩ := store_load_roundtrip
    { machine_of (arr_of [(0x200, 0xF2), (0x201, 0x55), (0x202, 0xF2), (0x203, 0x65)])
        (arr_of [(0, 11), (1, 22), (2, 33)]) (fun _ => 0) with I := 0x300 }
    2 (by decide) (by decide) (by decide)
  have hf : fetch s1.mem 0x202 = 0xF000 + 0x100 * 2 + 0x65 := by
    have h := h1
    have hd : (chip8_execute_instruction
        { machine_of (arr_of [(0x200, 0xF2), (0x201, 0x55), (0x202, 0xF2), (0x203, 0x65)])
            (arr_of [(0, 11), (1, 22), (2, 33)]) (fun _ => 0) with I := 0x300 }).map
        (fun r => fetch r.mem 0x202) = some (0xF000 + 0x100 * 2 + 0x65) := by decide
    rw [h] at hd
    simpa using hd
  obtain ⟨t1, g1, g2, g3⟩ := h6 (fun _ => 9) 0x202 hf
  exact ⟨s1, t1, h1, h2 0 (by decide), h2 2 (by decide), g1, g2 0 (by decide),
    g2 2 (by decide), g3 3 (by decide)⟩

/-! ## C17: fetch and the jump 1NNN -/

/-- Memory after `chip8_mem_reset` with an image that fits. -/
theorem chip8_mem_reset_mem (image : List Nat) (s : Machine) (hsize : image.length ≤ 3584)
    (k : Nat) :
    (chip8_mem_reset (some image) s).mem k =
      if k < 80 then font.getD k 0
      else if 0x200 ≤ k ∧ k < 0x200 + image.length then image.getD (k - 0x200) 0
      else if k < 4096 then 0 else s.mem k := by
  have hfit : ¬ image.length > MEMORY_SIZE - 0x200 := by
    show ¬ image.length > 4096 - 0x200
    omega
  simp only [chip8_mem_reset, chip8_load_rom, hfit, if_false]

/-- Memory after the first `chip8_load_rom`, on zero-initialised storage. -/
theorem first_load_mem (image : List Nat) (hsize : image.length ≤ 3584) (k : Nat) :
    (chip8_load_rom (some image) static_init).1.mem k =
      if k < 80 then font.getD k 0
      else if 0x200 ≤ k ∧ k < 0x200 + image.length then image.getD (k - 0x200) 0
      else 0 := by
  have hfit : ¬ image.length > MEMORY_SIZE - 0x200 := by
    show ¬ image.length > 4096 - 0x200
    omega
  simp only [chip8_load_rom, hfit, if_false, static_init]

theorem chip8_mem_clear_idem (fb : Nat → Nat) :
    chip8_mem_clear (chip8_mem_clear fb) = chip8_mem_clear fb := by
  funext k
  unfold chip8_mem_clear
  split <;> rfl

theorem chip8_clear_frame_absorb (fb fb2 : Nat → Nat) :
    chip8_clear_frame (chip8_mem_clear (chip8_clear_frame fb)) = chip8_clear_frame fb2 ↔
      ∀ k, 64 * 32 ≤ k → fb k = fb2 k := by
  constructor
  · intro h k hk
    have := congrFun h k
    have h1 : ¬ k < 64 * 32 := by omega
    have h2 : ¬ k < MEMORY_SIZE / 4 := by
      show ¬ k < 4096 / 4
      omega
    simpa [chip8_clear_frame, chip8_mem_clear, h1, h2] using this
  · intro h
    funext k
    by_cases h1 : k < 64 * 32
    · simp [chip8_clear_frame, h1]
    · have h2 : ¬ k < MEMORY_SIZE / 4 := by
        show ¬ k < 4096 / 4
        omega
      simp only [chip8_clear_frame, chip8_mem_clear, h1, h2, if_false]
      exact h k (by omega)

theorem chip8_reset_idem (file : Option (List Nat)) (s : Machine) :
    chip8_reset file (chip8_reset file s) = chip8_reset file s := by
  cases file with
  | none =>
    simp only [chip8_reset, chip8_mem_reset, chip8_load_rom, chip8_mem_clear_idem]
    congr 1 <;> funext k <;> split <;> simp_all
  | some image =>
    by_cases hfit : image.length > MEMORY_SIZE - 0x200
    · simp only [chip8_reset, chip8_mem_reset, chip8_load_rom, hfit, if_true,
        chip8_mem_clear_idem]
      congr 1 <;> funext k <;> split <;> simp_all
    · simp only [chip8_reset, chip8_mem_reset, chip8_load_rom, hfit, if_false]
      congr 1
      · funext k; split <;> simp_all
      · funext k; split <;> simp_all
      · funext k
        by_cases h1 : k < 80
        · simp [h1]
        · by_cases h2 : 0x200 ≤ k ∧ k < 0x200 + image.length
          · simp [h1, h2]
          · by_cases h3 : k < 4096
            · simp [h1, h2, h3]
            · simp [h1, h2, h3]
      · rw [chip8_clear_frame_absorb]
        intro k hk
        have h2 : ¬ k < MEMORY_SIZE / 4 := by
          show ¬ k < 4096 / 4
          omega
        simp [chip8_mem_clear, h2]
      · funext k; split <;> simp_all

/-- C14: with a program image of at most 3584 bytes, `chip8_reset` applied to
any machine state yields `program_counter = I = 0x200`, the sixteen V
registers and the sixteen stack entries zero, stack depth 0, and memory equal
to the font table at 0..79, the image from 0x200 on and zero elsewhere, which
is the memory right after the first load and the state `main` starts with;
the result is the same from every prior state `t`, and resetting twice equals
resetting once. -/
theorem reset_restores (image : List Nat) (s t : Machine) (hsize : image.length ≤ 3584) :
    (chip8_reset (some image) s).program_counter = 0x200 ∧
    (chip8_reset (some image) s).I = 0x200 ∧
    (∀ k, k < 16 → (chip8_reset (some image) s).V k = 0) ∧
    (∀ k, k < 16 → (chip8_reset (some image) s).stack k = 0) ∧
    (chip8_reset (some image) s).stack_pointer = 0 ∧
    (∀ k, k < 80 → (chip8_reset (some image) s).mem k = font.getD k 0) ∧
    (∀ i, i < image.length → (chip8_reset (some image) s).mem (0x200 + i) = image.getD i 0) ∧
    (∀ k, k < 4096 → 80 ≤ k → (k < 0x200 ∨ 0x200 + image.length ≤ k) →
      (chip8_reset (some image) s).mem k = 0) ∧
    (∀ k, k < 4096 →
      (chip8_reset (some image) s).mem k = (chip8_load_rom (some image) static_init).1.mem k) ∧
    (∀ k, k < 4096 → (chip8_reset (some image) s).mem k = (startup (some image)).mem k) ∧
    (chip8_reset (some image) s).program_counter = (startup (some image)).program_counter ∧
    (chip8_reset (some image) s).I = (startup (some image)).I ∧
    (chip8_reset (some image) s).stack_pointer = (startup (some image)).stack_pointer ∧
    (∀ k, k < 16 → (chip8_reset (some image) s).V k = (startup (some image)).V k) ∧
    (∀ k, k < 16 → (chip8_reset (some image) s).stack k = (startup (some image)).stack k) ∧
    ((chip8_reset (some image) s).program_counter = (chip8_reset (some image) t).program_counter ∧
      (chip8_reset (some image) s).I = (chip8_reset (some image) t).I ∧
      (chip8_reset (some image) s).stack_pointer = (chip8_reset (some image) t).stack_pointer ∧
      (∀ k, k < 16 → (chip8_reset (some image) s).V k = (chip8_reset (some image) t).V k) ∧
      (∀ k, k < 16 →
        (chip8_reset (some image) s).stack k = (chip8_reset (some image) t).stack k) ∧
      (∀ k, k < 4096 →
        (chip8_reset (some image) s).mem k = (chip8_reset (some image) t).mem k)) ∧
    chip8_reset (some image) (chip8_reset (some image) s) = chip8_reset (some image) s := by
  have hmem : ∀ (u : Machine) (k : Nat), k < 4096 →
      (chip8_reset (some image) u).mem k =
        if k < 80 then font.getD k 0
        else if 0x200 ≤ k ∧ k < 0x200 + image.length then image.getD (k - 0x200) 0
        else 0 := by
    intro u k hk
    have h := chip8_mem_reset_mem image u hsize k
    simp only [hk, if_true] at h
    exact h
  have hV : ∀ (u : Machine) (k : Nat), k < 16 → (chip8_reset (some image) u).V k = 0 := by
    intro u k hk
    simp [chip8_reset, hk]
  have hS : ∀ (u : Machine) (k : Nat), k < 16 → (chip8_reset (some image) u).stack k = 0 := by
    intro u k hk
    simp [chip8_reset, hk]
  refine ⟨rfl, rfl, hV s, hS s, rfl, ?_, ?_, ?_, ?_, ?_, rfl, rfl, rfl, ?_, ?_,
    ⟨rfl, rfl, rfl, ?_, ?_, ?_⟩, chip8_reset_idem _ s⟩
  · intro k hk
    rw [hmem s k (by omega), if_pos hk]
  · intro i hi
    have h1 : ¬ (0x200 + i < 80) := by omega
    have h2 : 0x200 ≤ 0x200 + i ∧ 0x200 + i < 0x200 + image.length := by omega
    have e : 0x200 + i - 0x200 = i := by omega
    rw [hmem s _ (by omega), if_neg h1, if_pos h2, e]
  · intro k hk h80 hout
    have h1 : ¬ k < 80 := by omega
    have h2 : ¬ (0x200 ≤ k ∧ k < 0x200 + image.length) := by omega
    rw [hmem s k hk, if_neg h1, if_neg h2]
  · intro k hk
    rw [hmem s k hk, first_load_mem image hsize k]
  · intro k hk
    rw [hmem s k hk]
    exact (hmem _ k hk).symm
  · intro k hk
    rw [hV s k hk]
    exact (hV _ k hk).symm
  · intro k hk
    rw [hS s k hk]
    exact (hS _ k hk).symm
  · intro k hk
    rw [hV s k hk, hV t k hk]
  · intro k hk
    rw [hS s k hk, hS t k hk]
  · intro k hk
    rw [hmem s k hk, hmem t k hk]

theorem reset_restores_witness :
    (chip8_reset (some [0x12, 0x00])
      (machine_of (fun _ => 0xAA) (fun _ => 7) (fun _ => 1))).mem 0x200 = 0x12 ∧
    (chip8_reset (some [0x12, 0x00])
      (machine_of (fun _ => 0xAA) (fun _ => 7) (fun _ => 1))).mem 0 = 0xF0 ∧
    (chip8_reset (some [0x12, 0x00])
      (machine_of (fun _ => 0xAA) (fun _ => 7) (fun _ => 1))).mem 0x300 = 0 ∧
    (chip8_reset (some [0x12, 0x00])
      (machine_of (fun _ => 0xAA) (fun _ => 7) (fun _ => 1))).V 3 = 0 :=
  have h := reset_restores [0x12, 0x00] (machine_of (fun _ => 0xAA) (fun _ => 7) (fun _ => 1))
    static_init (by decide)
  ⟨h.2.2.2.2.2.2.1 0 (by decide), h.2.2.2.2.2.1 0 (by decide),
    h.2.2.2.2.2.2.2.1 0x300 (by decide) (by decide) (by decide), h.2.2.1 3 (by decide)⟩

/-! ## C18: the stack depth -/

theorem keeps_depth_opcode0_E0 : keeps_depth opcode0_E0 := by
  intro s s1 h; cases h; rfl

theorem keeps_depth_nibble_1 : keeps_depth nibble_1 := by
  intro s s1 h; cases h; rfl

theorem keeps_depth_nibble_3 : keeps_depth nibble_3 := by
  intro s s1 h; unfold nibble_3 at h; split at h <;> (cases h; rfl)

theorem keeps_depth_nibble_4 : keeps_depth nibble_4 := by
  intro s s1 h; unfold nibble_4 at h; split at h <;> (cases h; rfl)

theorem keeps_depth_nibble_5 : keeps_depth nibble_5 := by
  intro s s1 h; unfold nibble_5 at h; split at h <;> (cases h; rfl)

theorem keeps_depth_nibble_6 : keeps_depth nibble_6 := by
  intro s s1 h; cases h; rfl

theorem keeps_depth_nibble_7 : keeps_depth nibble_7 := by
  intro s s1 h; cases h; rfl

theorem keeps_depth_nibble_9 : keeps_depth nibble_9 := by
  intro s s1 h; unfold nibble_9 at h; split at h <;> (cases h; rfl)

theorem keeps_depth_nibble_A : keeps_depth nibble_A := by
  intro s s1 h; cases h; rfl

theorem keeps_depth_nibble_B : keeps_depth nibble_B := by
  intro s s1 h; cases h; rfl

theorem keeps_depth_nibble_C : keeps_depth nibble_C := by
  intro s s1 h; cases h; rfl

theorem keeps_depth_nibble_D : keeps_depth nibble_D := by
  intro s s1 h
  unfold nibble_D at h
  split at h
  · cases h; rfl
  · cases h

theorem keeps_depth_opcode8 (n : Nat) (f : Machine → Option Machine) (hf : opcode8 n = some f) :
    keeps_depth f := by
  intro s s1 h
  unfold opcode8 at hf
  split at hf <;> cases hf <;> cases h <;> rfl

theorem keeps_depth_opcodeE (n : Nat) (f : Machine → Option Machine) (hf : opcodeE n = some f) :
    keeps_depth f := by
  intro s s1 h
  unfold opcodeE at hf
  split at hf <;> cases hf
  · unfold opcodeE_A1 at h; split at h <;> (cases h; rfl)
  · unfold opcodeE_9E at h; split at h <;> (cases h; rfl)

theorem opcodeF_0A_loop_depth :
    ∀ fuel (s : Machine) i s1, opcodeF_0A_loop s fuel i = some s1 →
      s1.stack_pointer = s.stack_pointer := by
  intro fuel
  induction fuel with
  | zero =>
    intro s i s1 h
    unfold opcodeF_0A_loop at h
    split at h
    · cases h
    · cases h; rfl
  | succ fuel ih =>
    intro s i s1 h
    unfold opcodeF_0A_loop at h
    split at h
    · split at h
      · cases h; rfl
      · exact ih s _ s1 h
    · cases h; rfl

theorem opcodeF_55_loop_depth :
    ∀ fuel (s : Machine) i s1, opcodeF_55_loop s fuel i = some s1 →
      s1.stack_pointer = s.stack_pointer := by
  intro fuel
  induction fuel with
  | zero =>
    intro s i s1 h
    unfold opcodeF_55_loop at h
    split at h
    · cases h
    · cases h; rfl
  | succ fuel ih =>
    intro s i s1 h
    unfold opcodeF_55_loop at h
    split at h
    · exact (ih _ _ s1 h).trans rfl
    · cases h; rfl

theorem opcodeF_65_loop_depth :
    ∀ fuel (s : Machine) i s1, opcodeF_65_loop s fuel i = some s1 →
      s1.stack_pointer = s.stack_pointer := by
  intro fuel
  induction fuel with
  | zero =>
    intro s i s1 h
    unfold opcodeF_65_loop at h
    split at h
    · cases h
    · cases h; rfl
  | succ fuel ih =>
    intro s i s1 h
    unfold opcodeF_65_loop at h
    split at h
    · exact (ih _ _ s1 h).trans rfl
    · cases h; rfl

theorem keeps_depth_opcodeF (n : Nat) (f : Machine → Option Machine) (hf : opcodeF n = some f) :
    keeps_depth f := by
  intro s s1 h
  unfold opcodeF at hf
  split at hf <;> cases hf
  · cases h; rfl
  · exact (opcodeF_0A_loop_depth _ _ _ _ h).trans rfl
  · unfold opcodeF_15 chip8_register_write at h
    split at h
    · cases h; rfl
    · split at h <;> (cases h; rfl)
  · unfold opcodeF_18 chip8_register_write at h
    split at h
    · cases h; rfl
    · split at h <;> (cases h; rfl)
  · cases h; rfl
  · cases h; rfl
  · cases h; rfl
  · exact (opcodeF_55_loop_depth _ _ _ _ h).trans rfl
  · exact (opcodeF_65_loop_depth _ _ _ _ h).trans rfl

theorem fetch_lt (mem : Nat → Nat) (pc : Nat) : fetch mem pc < 65536 := by
  unfold fetch u16
  omega

/-- A word of family 0 reaches the entry of `opcode0` its low nibble selects. -/
theorem exec_family_0 (s : Machine) (hn : fetch s.mem s.program_counter / 4096 % 16 = 0) :
    chip8_execute_instruction s
      = call_ptr (opcode0 (fetch s.mem s.program_counter % 16)) (dispatch_state s) := by
  have hN : (dispatch_state s).opcode.N = fetch s.mem s.program_counter % 16 := dispatch_N s
  have hle : fetch s.mem s.program_counter % 16 ≤ 15 := by omega
  rw [exec_eq_dispatch, hn]
  simp only [opcode_ptr, call_ptr, nibble_0, hN]
  simp [hle]

/-- A word of family E reaches the entry of `opcodeE` its low nibble selects. -/
theorem exec_family_E (s : Machine) (hn : fetch s.mem s.program_counter / 4096 % 16 = 0xE) :
    chip8_execute_instruction s
      = call_ptr (opcodeE (fetch s.mem s.program_counter % 16)) (dispatch_state s) := by
  have hN : (dispatch_state s).opcode.N = fetch s.mem s.program_counter % 16 := dispatch_N s
  have hle : fetch s.mem s.program_counter % 16 ≤ 15 := by omega
  rw [exec_eq_dispatch, hn]
  simp only [opcode_ptr, call_ptr, nibble_E, hN]
  simp [hle]

theorem call_ptr_keeps_depth (e : Option (Machine → Option Machine)) (s s1 : Machine)
    (he : ∀ f, e = some f → keeps_depth f) (h : call_ptr e s = some s1) :
    s1.stack_pointer = s.stack_pointer := by
  cases e with
  | none => cases h
  | some f => exact he f rfl s s1 h

/-- How one step moves the stack pointer: 2NNN increments it, a return
(family 0, low nibble E) decrements it, every other word leaves it. -/
theorem exec_depth (s s1 : Machine) (h : chip8_execute_instruction s = some s1) :
    (fetch s.mem s.program_counter / 4096 % 16 = 2 ∧ s.stack_pointer < 16 ∧
      s1.stack_pointer = s.stack_pointer + 1) ∨
    (fetch s.mem s.program_counter / 4096 % 16 = 0 ∧ fetch s.mem s.program_counter % 16 = 0xE ∧
      1 ≤ s.stack_pointer ∧ s.stack_pointer ≤ 16 ∧ s1.stack_pointer = s.stack_pointer - 1) ∨
    (fetch s.mem s.program_counter / 4096 % 16 ≠ 2 ∧
      ¬ (fetch s.mem s.program_counter / 4096 % 16 = 0 ∧
          fetch s.mem s.program_counter % 16 = 0xE) ∧
      s1.stack_pointer = s.stack_pointer) := by
  have hsp : (dispatch_state s).stack_pointer = s.stack_pointer := rfl
  have hNN : (dispatch_state s).opcode.NN ≤ 0xFF := by rw [dispatch_NN]; omega
  have hN : (dispatch_state s).opcode.N ≤ 0xF := by rw [dispatch_N]; omega
  by_cases h0 : fetch s.mem s.program_counter / 4096 % 16 = 0
  · rw [exec_family_0 s h0] at h
    by_cases hE : fetch s.mem s.program_counter % 16 = 0xE
    · rw [hE] at h
      simp only [opcode0, call_ptr, opcode0_EE] at h
      split at h
      · cases h
        exact Or.inr (Or.inl ⟨h0, hE, by omega, by omega, rfl⟩)
      · cases h
    · refine Or.inr (Or.inr ⟨by omega, fun hc => hE hc.2, ?_⟩)
      refine (call_ptr_keeps_depth _ _ _ ?_ h).trans hsp
      intro f hf
      unfold opcode0 at hf
      split at hf
      · cases hf; exact keeps_depth_opcode0_E0
      · omega
      · cases hf
  · by_cases h2 : fetch s.mem s.program_counter / 4096 % 16 = 2
    · rw [exec_eq_dispatch, h2] at h
      simp only [opcode_ptr, call_ptr, nibble_2] at h
      split at h
      · cases h
        exact Or.inl ⟨h2, by omega, rfl⟩
      · cases h
    · refine Or.inr (Or.inr ⟨h2, fun hc => h0 hc.1, ?_⟩)
      rw [exec_eq_dispatch] at h
      generalize hn : fetch s.mem s.program_counter / 4096 % 16 = n at h h0 h2
      have hlt : n < 16 := by omega
      interval_cases n
      · exact absurd rfl h0
      · exact (keeps_depth_nibble_1 _ _ h).trans hsp
      · exact absurd rfl h2
      · exact (keeps_depth_nibble_3 _ _ h).trans hsp
      · exact (keeps_depth_nibble_4 _ _ h).trans hsp
      · exact (keeps_depth_nibble_5 _ _ h).trans hsp
      · exact (keeps_depth_nibble_6 _ _ h).trans hsp
      · exact (keeps_depth_nibble_7 _ _ h).trans hsp
      · simp only [opcode_ptr, call_ptr, nibble_8, hN, ge_iff_le, Nat.zero_le, true_and,
          if_true] at h
        exact (call_ptr_keeps_depth _ _ _ (keeps_depth_opcode8 _) h).trans hsp
      · exact (keeps_depth_nibble_9 _ _ h).trans hsp
      · exact (keeps_depth_nibble_A _ _ h).trans hsp
      · exact (keeps_depth_nibble_B _ _ h).trans hsp
      · exact (keeps_depth_nibble_C _ _ h).trans hsp
      · exact (keeps_depth_nibble_D _ _ h).trans hsp
      · simp only [opcode_ptr, call_ptr, nibble_E, hN, ge_iff_le, Nat.zero_le, true_and,
          if_true] at h
        exact (call_ptr_keeps_depth _ _ _ (keeps_depth_opcodeE _) h).trans hsp
      · simp only [opcode_ptr, call_ptr, nibble_F, hNN, ge_iff_le, Nat.zero_le, true_and,
          if_true] at h
        exact (call_ptr_keeps_depth _ _ _ (keeps_depth_opcodeF _) h).trans hsp

/-- C18 (counterexample): with stack depth 15 the word `2300` leaves depth
16, outside [0,16); with stack depth 0 the word `00EE` loads from below
`stack[0]` and the step has no defined result. -/
theorem stack_depth_not_preserved :
    { machine_of (arr_of [(0x200, 0x23), (0x201, 0x00)]) (fun _ => 0) (fun _ => 0) with
        stack_pointer := 15 }.stack_pointer < 16 ∧
    (chip8_execute_instruction
      { machine_of (arr_of [(0x200, 0x23), (0x201, 0x00)]) (fun _ => 0) (fun _ => 0) with
        stack_pointer := 15 }).map (fun r => r.stack_pointer) = some 16 ∧
    (machine_of (arr_of [(0x200, 0x00), (0x201, 0xEE)]) (fun _ => 0) (fun _ => 0)).stack_pointer
      = 0 ∧
    chip8_execute_instruction
      (machine_of (arr_of [(0x200, 0x00), (0x201, 0xEE)]) (fun _ => 0) (fun _ => 0)) = none := by
  refine ⟨by decide, by decide, by decide, rfl⟩

/-- C18 (amended): from a stack depth `d` within [0,16), a step that returns
leaves the depth within [0,16], equal to 16 only after 2NNN at `d = 15`, and
unchanged unless the word is 2NNN or a return (family 0, low nibble E); 2NNN
returns, stores the return address at `stack[d]` and leaves depth `d + 1`; a
return with `d ≥ 1` returns, loads `stack[d - 1]` and leaves depth `d - 1`; a
return with `d = 0` loads from outside the array and has no defined result. -/
theorem stack_depth_step (s : Machine) (hd : s.stack_pointer < 16) :
    (∀ s1, chip8_execute_instruction s = some s1 →
      s1.stack_pointer ≤ 16 ∧
      (s1.stack_pointer = 16 →
        s.stack_pointer = 15 ∧ fetch s.mem s.program_counter / 4096 % 16 = 2) ∧
      (fetch s.mem s.program_counter / 4096 % 16 ≠ 2 →
        ¬ (fetch s.mem s.program_counter / 4096 % 16 = 0 ∧
            fetch s.mem s.program_counter % 16 = 0xE) →
        s1.stack_pointer = s.stack_pointer)) ∧
    (fetch s.mem s.program_counter / 4096 % 16 = 2 →
      ∃ s1, chip8_execute_instruction s = some s1 ∧
        s1.stack_pointer = s.stack_pointer + 1 ∧
        s1.stack s.stack_pointer = (s.program_counter + 2) % 65536) ∧
    (fetch s.mem s.program_counter / 4096 % 16 = 0 →
      fetch s.mem s.program_counter % 16 = 0xE → 1 ≤ s.stack_pointer →
      ∃ s1, chip8_execute_instruction s = some s1 ∧
        s1.stack_pointer = s.stack_pointer - 1 ∧
        s1.program_counter = s.stack (s.stack_pointer - 1)) ∧
    (fetch s.mem s.program_counter / 4096 % 16 = 0 →
      fetch s.mem s.program_counter % 16 = 0xE → s.stack_pointer = 0 →
      chip8_execute_instruction s = none) := by
  have hsp : (dispatch_state s).stack_pointer = s.stack_pointer := rfl
  refine ⟨?_, ?_, ?_, ?_⟩
  · intro s1 h
    rcases exec_depth s s1 h with ⟨h2, _, h1⟩ | ⟨h0, hE, _, _, h1⟩ | ⟨hn2, hnE, h1⟩
    · exact ⟨by omega, fun h16 => ⟨by omega, h2⟩, fun hne => absurd h2 hne⟩
    · exact ⟨by omega, fun h16 => by omega, fun _ hne => absurd ⟨h0, hE⟩ hne⟩
    · exact ⟨by omega, fun h16 => by omega, fun _ _ => h1⟩
  · intro h2
    have hlt := fetch_lt s.mem s.program_counter
    have hw : fetch s.mem s.program_counter
        = 0x2000 + fetch s.mem s.program_counter % 4096 := by omega
    refine ⟨_, call_2nnn s (fetch s.mem s.program_counter % 4096) (by omega) hd hw, rfl, ?_⟩
    show arr_set s.stack s.stack_pointer (u16 (s.program_counter + 2)) s.stack_pointer = _
    simp [arr_set, u16]
  · intro h0 hE h1
    rw [exec_family_0 s h0, hE]
    have hc : 1 ≤ (dispatch_state s).stack_pointer ∧ (dispatch_state s).stack_pointer - 1 < 16 := by
      rw [hsp]; omega
    simp only [opcode0, call_ptr, opcode0_EE, hc, and_self, if_true]
    exact ⟨_, rfl, rfl, rfl⟩
  · intro h0 hE hz
    rw [exec_family_0 s h0, hE]
    have hc : ¬ (1 ≤ (dispatch_state s).stack_pointer ∧
        (dispatch_state s).stack_pointer - 1 < 16) := by
      rw [hsp]; omega
    simp only [opcode0, call_ptr, opcode0_EE, hc, if_false]

theorem stack_depth_step_witness :
    (∃ s1, chip8_execute_instruction
        { machine_of (arr_of [(0x200, 0x23), (0x201, 0x00)]) (fun _ => 0) (fun _ => 0) with
          stack_pointer := 14 } = some s1 ∧
      s1.stack_pointer = 15 ∧ s1.stack 14 = 0x202) ∧
    chip8_execute_instruction
      (machine_of (arr_of [(0x200, 0x00), (0x201, 0xEE)]) (fun _ => 0) (fun _ => 0)) = none :=
  ⟨((stack_depth_step
      { machine_of (arr_of [(0x200, 0x23), (0x201, 0x00)]) (fun _ => 0) (fun _ => 0) with
        stack_pointer := 14 } (by decide)).2.1 (by decide)),
    (stack_depth_step
      (machine_of (arr_of [(0x200, 0x00), (0x201, 0xEE)]) (fun _ => 0) (fun _ => 0))
      (by decide)).2.2.2 (by decide) (by decide) (by decide)⟩

/-! ## C19: secondary dispatch on the low nibble -/

theorem same_visible_dispatch (s t : Machine) (h : same_visible s t) :
    same_visible (dispatch_state s) (dispatch_state t) := by
  obtain ⟨h1, h2, h3, h4, h5, h6, h7, h8, h9⟩ := h
  refine ⟨h1, h2, h3, h4, ?_, h6, h7, h8, h9⟩
  show u16 (s.program_counter + 2) = u16 (t.program_counter + 2)
  rw [h5]

theorem same_outcome_opcode0_E0 (a b : Machine) (h : same_visible a b) :
    same_outcome (opcode0_E0 a) (opcode0_E0 b) := by
  obtain ⟨h1, h2, h3, h4, h5, h6, h7, h8, h9⟩ := h
  refine ⟨h1, h2, h3, h4, h5, ?_, h7, h8, h9⟩
  show chip8_clear_frame a.framebuffer = chip8_clear_frame b.framebuffer
  rw [h6]

theorem same_outcome_opcode0_EE (a b : Machine) (h : same_visible a b) :
    same_outcome (opcode0_EE a) (opcode0_EE b) := by
  obtain ⟨h1, h2, h3, h4, h5, h6, h7, h8, h9⟩ := h
  unfold opcode0_EE
  rw [h4]
  split
  · refine ⟨h1, h2, h3, rfl, ?_, h6, h7, h8, h9⟩
    show a.stack (b.stack_pointer - 1) = b.stack (b.stack_pointer - 1)
    rw [h1]
  · exact True.intro

theorem same_visible_register_read (a b : Machine) (h : same_visible a b) (r : Nat) :
    chip8_register_read a r = chip8_register_read b r := by
  obtain ⟨_, _, _, _, _, _, h7, h8, h9⟩ := h
  unfold chip8_register_read
  rw [h7, h8, h9]

theorem same_outcome_opcodeE_A1 (a b : Machine) (h : same_visible a b)
    (hX : a.opcode.X = b.opcode.X) :
    same_outcome (opcodeE_A1 a) (opcodeE_A1 b) := by
  have hr := same_visible_register_read a b h
  obtain ⟨h1, h2, h3, h4, h5, h6, h7, h8, h9⟩ := h
  unfold opcodeE_A1
  have hVX : a.V b.opcode.X = b.V b.opcode.X := by rw [h2]
  rw [hr, hX, hVX]
  split
  · refine ⟨h1, h2, h3, h4, ?_, h6, h7, h8, h9⟩
    show u16 (a.program_counter + 2) = u16 (b.program_counter + 2)
    rw [h5]
  · exact ⟨h1, h2, h3, h4, h5, h6, h7, h8, h9⟩

theorem same_outcome_opcodeE_9E (a b : Machine) (h : same_visible a b)
    (hX : a.opcode.X = b.opcode.X) :
    same_outcome (opcodeE_9E a) (opcodeE_9E b) := by
  have hr := same_visible_register_read a b h
  obtain ⟨h1, h2, h3, h4, h5, h6, h7, h8, h9⟩ := h
  unfold opcodeE_9E
  have hVX : a.V b.opcode.X = b.V b.opcode.X := by rw [h2]
  rw [hr, hX, hVX]
  split
  · refine ⟨h1, h2, h3, h4, ?_, h6, h7, h8, h9⟩
    show u16 (a.program_counter + 2) = u16 (b.program_counter + 2)
    rw [h5]
  · exact ⟨h1, h2, h3, h4, h5, h6, h7, h8, h9⟩

theorem register_read_key (s : Machine) (v : Nat) :
    chip8_register_read (dispatch_state s) (v &&& 0xF) = s.buttons (v &&& 0xF) := by
  have hlt : v &&& 0xF < CHIP8_REG_DELAY := by
    rw [and_0xF]
    show v % 16 < 0x10
    omega
  simp only [chip8_register_read, hlt, if_true]
  rfl

/-- The step a word of family 0 with low nibble 0 performs. -/
theorem exec_clear (s : Machine) (hn : fetch s.mem s.program_counter / 4096 % 16 = 0)
    (hN : fetch s.mem s.program_counter % 16 = 0) :
    chip8_execute_instruction s
      = some { dispatch_state s with framebuffer := chip8_clear_frame s.framebuffer } := by
  rw [exec_family_0 s hn, hN]
  rfl

/-- The step a word of family 0 with low nibble E performs. -/
theorem exec_return (s : Machine) (hn : fetch s.mem s.program_counter / 4096 % 16 = 0)
    (hN : fetch s.mem s.program_counter % 16 = 0xE) :
    chip8_execute_instruction s
      = if 1 ≤ s.stack_pointer ∧ s.stack_pointer - 1 < 16 then
          some { dispatch_state s with
                 stack_pointer := s.stack_pointer - 1
                 program_counter := s.stack (s.stack_pointer - 1) }
        else none := by
  rw [exec_family_0 s hn, hN]
  rfl

/-- The step a word of family E with low nibble 1 performs. -/
theorem exec_skip_not_pressed (s : Machine) (X : Nat)
    (hn : fetch s.mem s.program_counter / 4096 % 16 = 0xE)
    (hN : fetch s.mem s.program_counter % 16 = 1)
    (hX : fetch s.mem s.program_counter / 256 % 16 = X) :
    chip8_execute_instruction s
      = some { dispatch_state s with
               program_counter :=
                 if s.buttons (s.V X &&& 0xF) = 0 then u16 (u16 (s.program_counter + 2) + 2)
                 else u16 (s.program_counter + 2) } := by
  have hx : (dispatch_state s).opcode.X = X := by rw [dispatch_X]; exact hX
  have hV : (dispatch_state s).V = s.V := rfl
  rw [exec_family_E s hn, hN]
  simp only [opcodeE, call_ptr, opcodeE_A1, hx, hV, register_read_key]
  split <;> rfl

/-- The step a word of family E with low nibble E performs. -/
theorem exec_skip_pressed (s : Machine) (X : Nat)
    (hn : fetch s.mem s.program_counter / 4096 % 16 = 0xE)
    (hN : fetch s.mem s.program_counter % 16 = 0xE)
    (hX : fetch s.mem s.program_counter / 256 % 16 = X) :
    chip8_execute_instruction s
      = some { dispatch_state s with
               program_counter :=
                 if s.buttons (s.V X &&& 0xF) ≠ 0 then u16 (u16 (s.program_counter + 2) + 2)
                 else u16 (s.program_counter + 2) } := by
  have hx : (dispatch_state s).opcode.X = X := by rw [dispatch_X]; exact hX
  have hV : (dispatch_state s).V = s.V := rfl
  rw [exec_family_E s hn, hN]
  simp only [opcodeE, call_ptr, opcodeE_9E, hx, hV, register_read_key]
  split <;> rfl

/-- C19: in the families 0 and E only the low nibble of the word selects the
handler.  For nibbles `a`, `b` (and `X`), a machine `s` whose word is `0ab0`
(`0abE`, `EXb1`, `EXbE`) and a machine `t` whose word is `00E0` (`00EE`,
`EXA1`, `EX9E` with the same `X`) perform the same step, given explicitly:
`0ab0` and `00E0` clear the framebuffer; `0abE` and `00EE` pop the stack into
the program counter (no defined result outside the stack array); `EXb1` and
`EXA1` skip when key `VX & 0xF` is not pressed, `EXbE` and `EX9E` when it is
pressed.  In each case the program counter was advanced by 2 first and
nothing else changes (`control_step_frame`): registers, `I`, stack entries,
memory, keypad, timers are kept, and `opcode` holds the decoded fetched word.
So when `s` and `t` agree on everything but memory, both steps fail or both
return with results that agree on the stack, the stack depth, the V
registers, `I`, the program counter, the framebuffer, the keypad and the
timers. -/
theorem low_nibble_selects (s t : Machine) (w wc : Nat) (hvis : same_visible s t)
    (hpair :
      (∃ a b, a ≤ 15 ∧ b ≤ 15 ∧ w = 0x100 * a + 0x10 * b ∧ wc = 0x00E0) ∨
      (∃ a b, a ≤ 15 ∧ b ≤ 15 ∧ w = 0x100 * a + 0x10 * b + 0xE ∧ wc = 0x00EE) ∨
      (∃ X b, X ≤ 15 ∧ b ≤ 15 ∧ w = 0xE000 + 0x100 * X + 0x10 * b + 0x1 ∧
        wc = 0xE000 + 0x100 * X + 0xA1) ∨
      (∃ X b, X ≤ 15 ∧ b ≤ 15 ∧ w = 0xE000 + 0x100 * X + 0x10 * b + 0xE ∧
        wc = 0xE000 + 0x100 * X + 0x9E))
    (hs : fetch s.mem s.program_counter = w) (ht : fetch t.mem t.program_counter = wc) :
    same_outcome (chip8_execute_instruction s) (chip8_execute_instruction t) ∧
    (wc = 0x00E0 → ∃ r, chip8_execute_instruction s = some r ∧
      ∀ k, k < 64 * 32 → r.framebuffer k = 0) ∧
    (wc = 0x00E0 →
      chip8_execute_instruction s
        = some { dispatch_state s with framebuffer := chip8_clear_frame s.framebuffer } ∧
      chip8_execute_instruction t
        = some { dispatch_state t with framebuffer := chip8_clear_frame t.framebuffer }) ∧
    (wc = 0x00EE →
      chip8_execute_instruction s
        = (if 1 ≤ s.stack_pointer ∧ s.stack_pointer - 1 < 16 then
            some { dispatch_state s with
                   stack_pointer := s.stack_pointer - 1
                   program_counter := s.stack (s.stack_pointer - 1) }
          else none) ∧
      chip8_execute_instruction t
        = (if 1 ≤ t.stack_pointer ∧ t.stack_pointer - 1 < 16 then
            some { dispatch_state t with
                   stack_pointer := t.stack_pointer - 1
                   program_counter := t.stack (t.stack_pointer - 1) }
          else none)) ∧
    (∀ X, X ≤ 15 → wc = 0xE000 + 0x100 * X + 0xA1 →
      chip8_execute_instruction s
        = some { dispatch_state s with
                 program_counter :=
                   if s.buttons (s.V X &&& 0xF) = 0 then u16 (u16 (s.program_counter + 2) + 2)
                   else u16 (s.program_counter + 2) } ∧
      chip8_execute_instruction t
        = some { dispatch_state t with
                 program_counter :=
                   if t.buttons (t.V X &&& 0xF) = 0 then u16 (u16 (t.program_counter + 2) + 2)
                   else u16 (t.program_counter + 2) }) ∧
    (∀ X, X ≤ 15 → wc = 0xE000 + 0x100 * X + 0x9E →
      chip8_execute_instruction s
        = some { dispatch_state s with
                 program_counter :=
                   if s.buttons (s.V X &&& 0xF) ≠ 0 then u16 (u16 (s.program_counter + 2) + 2)
                   else u16 (s.program_counter + 2) } ∧
      chip8_execute_instruction t
        = some { dispatch_state t with
                 program_counter :=
                   if t.buttons (t.V X &&& 0xF) ≠ 0 then u16 (u16 (t.program_counter + 2) + 2)
                   else u16 (t.program_counter + 2) }) ∧
    (∀ r, chip8_execute_instruction s = some r → control_step_frame s r) ∧
    (∀ r, chip8_execute_instruction t = some r → control_step_frame t r) := by
  have hd := same_visible_dispatch s t hvis
  have hframe : ∀ (u r : Machine) (v : Machine), some v = some r →
      v.V = u.V → v.I = u.I → v.stack = u.stack → v.mem = u.mem → v.buttons = u.buttons →
      v.delay_timer = u.delay_timer → v.sound_timer = u.sound_timer →
      v.rand_values = u.rand_values → v.rand_calls = u.rand_calls →
      v.opcode = decode_helper { u.opcode with unmodified := fetch u.mem u.program_counter } →
      control_step_frame u r := by
    intro u r v hr h1 h2 h3 h4 h5 h6 h7 h8 h9 h10
    cases hr
    exact ⟨h1, h2, h3, h4, h5, h6, h7, h8, h9, h10⟩
  rcases hpair with ⟨a, b, ha, hb, hw, hwc⟩ | ⟨a, b, ha, hb, hw, hwc⟩ |
      ⟨X, b, hX, hb, hw, hwc⟩ | ⟨X, b, hX, hb, hw, hwc⟩
  · subst hw hwc
    have hes := exec_clear s (by omega) (by omega)
    have het := exec_clear t (by omega) (by omega)
    refine ⟨?_, fun _ => ⟨_, hes, ?_⟩, fun _ => ⟨hes, het⟩, fun h => by omega,
      fun X hX h => by omega, fun X hX h => by omega, ?_, ?_⟩
    · rw [hes, het]
      exact same_outcome_opcode0_E0 _ _ hd
    · intro k hk
      show chip8_clear_frame s.framebuffer k = 0
      simp [chip8_clear_frame, hk]
    · intro r hr
      rw [hes] at hr
      exact hframe s r _ hr rfl rfl rfl rfl rfl rfl rfl rfl rfl rfl
    · intro r hr
      rw [het] at hr
      exact hframe t r _ hr rfl rfl rfl rfl rfl rfl rfl rfl rfl rfl
  · subst hw hwc
    have hes := exec_return s (by omega) (by omega)
    have het := exec_return t (by omega) (by omega)
    refine ⟨?_, fun h => by omega, fun h => by omega, fun _ => ⟨hes, het⟩,
      fun X hX h => by omega, fun X hX h => by omega, ?_, ?_⟩
    · rw [exec_family_0 s (by omega), exec_family_0 t (by omega)]
      have e1 : fetch s.mem s.program_counter % 16 = 0xE := by omega
      have e2 : fetch t.mem t.program_counter % 16 = 0xE := by omega
      rw [e1, e2]
      exact same_outcome_opcode0_EE _ _ hd
    · intro r hr
      rw [hes] at hr
      split at hr
      · exact hframe s r _ hr rfl rfl rfl rfl rfl rfl rfl rfl rfl rfl
      · cases hr
    · intro r hr
      rw [het] at hr
      split at hr
      · exact hframe t r _ hr rfl rfl rfl rfl rfl rfl rfl rfl rfl rfl
      · cases hr
  · subst hw hwc
    have hes := exec_skip_not_pressed s X (by omega) (by omega) (by omega)
    have het := exec_skip_not_pressed t X (by omega) (by omega) (by omega)
    refine ⟨?_, fun h => by omega, fun h => by omega, fun h => by omega, ?_,
      fun X2 hX2 h => by omega, ?_, ?_⟩
    · rw [exec_family_E s (by omega), exec_family_E t (by omega)]
      have e1 : fetch s.mem s.program_counter % 16 = 1 := by omega
      have e2 : fetch t.mem t.program_counter % 16 = 1 := by omega
      rw [e1, e2]
      exact same_outcome_opcodeE_A1 _ _ hd (by rw [dispatch_X, dispatch_X]; omega)
    · intro X2 hX2 h
      have hXX : X2 = X := by omega
      subst hXX
      exact ⟨hes, het⟩
    · intro r hr
      rw [hes] at hr
      exact hframe s r _ hr rfl rfl rfl rfl rfl rfl rfl rfl rfl rfl
    · intro r hr
      rw [het] at hr
      exact hframe t r _ hr rfl rfl rfl rfl rfl rfl rfl rfl rfl rfl
  · subst hw hwc
    have hes := exec_skip_pressed s X (by omega) (by omega) (by omega)
    have het := exec_skip_pressed t X (by omega) (by omega) (by omega)
    refine ⟨?_, fun h => by omega, fun h => by omega, fun h => by omega,
      fun X2 hX2 h => by omega, ?_, ?_, ?_⟩
    · rw [exec_family_E s (by omega), exec_family_E t (by omega)]
      have e1 : fetch s.mem s.program_counter % 16 = 0xE := by omega
      have e2 : fetch t.mem t.program_counter % 16 = 0xE := by omega
      rw [e1, e2]
      exact same_outcome_opcodeE_9E _ _ hd (by rw [dispatch_X, dispatch_X]; omega)
    · intro X2 hX2 h
      have hXX : X2 = X := by omega
      subst hXX
      exact ⟨hes, het⟩
    · intro r hr
      rw [hes] at hr
      exact hframe s r _ hr rfl rfl rfl rfl rfl rfl rfl rfl rfl rfl
    · intro r hr
      rw [het] at hr
      exact hframe t r _ hr rfl rfl rfl rfl rfl rfl rfl rfl rfl rfl

theorem low_nibble_selects_witness :
    (∃ r, chip8_execute_instruction
        { machine_of (arr_of [(0x200, 0x01), (0x201, 0x20)]) (fun _ => 0) (fun _ => 0) with
          framebuffer := fun _ => 0xffffffff } = some r ∧
      r.framebuffer 5 = 0 ∧ r.mem 0x200 = 0x01 ∧ r.mem 0 = 0 ∧ r.program_counter = 0x202) ∧
    same_outcome
      (chip8_execute_instruction
        { machine_of (arr_of [(0x200, 0x01), (0x201, 0x20)]) (fun _ => 0) (fun _ => 0) with
          framebuffer := fun _ => 0xffffffff })
      (chip8_execute_instruction
        { machine_of (arr_of [(0x200, 0x00), (0x201, 0xE0)]) (fun _ => 0) (fun _ => 0) with
          framebuffer := fun _ => 0xffffffff }) ∧
    (∃ r, chip8_execute_instruction
        (machine_of (arr_of [(0x200, 0xE3), (0x201, 0xB1)]) (arr_of [(3, 7)]) (arr_of [(7, 1)]))
        = some r ∧ r.program_counter = 0x202 ∧ r.mem 0 = 0 ∧ r.V 3 = 7) ∧
    (∃ r, chip8_execute_instruction
        (machine_of (arr_of [(0x200, 0xE3), (0x201, 0x0E)]) (arr_of [(3, 7)]) (arr_of [(7, 1)]))
        = some r ∧ r.program_counter = 0x204) := by
  have h1 := low_nibble_selects
    { machine_of (arr_of [(0x200, 0x01), (0x201, 0x20)]) (fun _ => 0) (fun _ => 0) with
      framebuffer := fun _ => 0xffffffff }
    { machine_of (arr_of [(0x200, 0x00), (0x201, 0xE0)]) (fun _ => 0) (fun _ => 0) with
      framebuffer := fun _ => 0xffffffff }
    0x0120 0x00E0 ⟨rfl, rfl, rfl, rfl, rfl, rfl, rfl, rfl, rfl⟩
    (Or.inl ⟨1, 2, by decide, by decide, by decide, by decide⟩) (by decide) (by decide)
  have h2 := low_nibble_selects
    (machine_of (arr_of [(0x200, 0xE3), (0x201, 0xB1)]) (arr_of [(3, 7)]) (arr_of [(7, 1)]))
    (machine_of (arr_of [(0x200, 0xE3), (0x201, 0xA1)]) (arr_of [(3, 7)]) (arr_of [(7, 1)]))
    0xE3B1 0xE3A1 ⟨rfl, rfl, rfl, rfl, rfl, rfl, rfl, rfl, rfl⟩
    (Or.inr (Or.inr (Or.inl ⟨3, 0xB, by decide, by decide, by decide, by decide⟩)))
    (by decide) (by decide)
  have h3 := low_nibble_selects
    (machine_of (arr_of [(0x200, 0xE3), (0x201, 0x0E)]) (arr_of [(3, 7)]) (arr_of [(7, 1)]))
    (machine_of (arr_of [(0x200, 0xE3), (0x201, 0x9E)]) (arr_of [(3, 7)]) (arr_of [(7, 1)]))
    0xE30E 0xE39E ⟨rfl, rfl, rfl, rfl, rfl, rfl, rfl, rfl, rfl⟩
    (Or.inr (Or.inr (Or.inr ⟨3, 0, by decide, by decide, by decide, by decide⟩)))
    (by decide) (by decide)
  refine ⟨⟨_, (h1.2.2.1 rfl).1, by decide, by decide, by decide, by decide⟩, h1.1,
    ⟨_, (h2.2.2.2.2.1 3 (by decide) (by decide)).1, by decide, by decide, by decide⟩,
    ⟨_, (h3.2.2.2.2.2.1 3 (by decide) (by decide)).1, by decide⟩⟩

/-! ## C21: pixels are 0 or `PIXEL_SET` -/

theorem keeps_frame_opcode0_EE : keeps_frame opcode0_EE := by
  intro s s1 h; unfold opcode0_EE at h; split at h
  · cases h; rfl
  · cases h

theorem keeps_frame_nibble_1 : keeps_frame nibble_1 := by
  intro s s1 h; cases h; rfl

theorem keeps_frame_nibble_2 : keeps_frame nibble_2 := by
  intro s s1 h; unfold nibble_2 at h; split at h
  · cases h; rfl
  · cases h

theorem keeps_frame_nibble_3 : keeps_frame nibble_3 := by
  intro s s1 h; unfold nibble_3 at h; split at h <;> (cases h; rfl)

theorem keeps_frame_nibble_4 : keeps_frame nibble_4 := by
  intro s s1 h; unfold nibble_4 at h; split at h <;> (cases h; rfl)

theorem keeps_frame_nibble_5 : keeps_frame nibble_5 := by
  intro s s1 h; unfold nibble_5 at h; split at h <;> (cases h; rfl)

theorem keeps_frame_nibble_6 : keeps_frame nibble_6 := by
  intro s s1 h; cases h; rfl

theorem keeps_frame_nibble_7 : keeps_frame nibble_7 := by
  intro s s1 h; cases h; rfl

theorem keeps_frame_nibble_9 : keeps_frame nibble_9 := by
  intro s s1 h; unfold nibble_9 at h; split at h <;> (cases h; rfl)

theorem keeps_frame_nibble_A : keeps_frame nibble_A := by
  intro s s1 h; cases h; rfl

theorem keeps_frame_nibble_B : keeps_frame nibble_B := by
  intro s s1 h; cases h; rfl

theorem keeps_frame_nibble_C : keeps_frame nibble_C := by
  intro s s1 h; cases h; rfl

theorem keeps_frame_opcode8 (n : Nat) (f : Machine → Option Machine) (hf : opcode8 n = some f) :
    keeps_frame f := by
  intro s s1 h
  unfold opcode8 at hf
  split at hf <;> cases hf <;> cases h <;> rfl

theorem keeps_frame_opcodeE (n : Nat) (f : Machine → Option Machine) (hf : opcodeE n = some f) :
    keeps_frame f := by
  intro s s1 h
  unfold opcodeE at hf
  split at hf <;> cases hf
  · unfold opcodeE_A1 at h; split at h <;> (cases h; rfl)
  · unfold opcodeE_9E at h; split at h <;> (cases h; rfl)

theorem opcodeF_0A_loop_frame :
    ∀ fuel (s : Machine) i s1, opcodeF_0A_loop s fuel i = some s1 →
      s1.framebuffer = s.framebuffer := by
  intro fuel
  induction fuel with
  | zero =>
    intro s i s1 h
    unfold opcodeF_0A_loop at h
    split at h
    · cases h
    · cases h; rfl
  | succ fuel ih =>
    intro s i s1 h
    unfold opcodeF_0A_loop at h
    split at h
    · split at h
      · cases h; rfl
      · exact ih s _ s1 h
    · cases h; rfl

theorem opcodeF_55_loop_frame :
    ∀ fuel (s : Machine) i s1, opcodeF_55_loop s fuel i = some s1 →
      s1.framebuffer = s.framebuffer := by
  intro fuel
  induction fuel with
  | zero =>
    intro s i s1 h
    unfold opcodeF_55_loop at h
    split at h
    · cases h
    · cases h; rfl
  | succ fuel ih =>
    intro s i s1 h
    unfold opcodeF_55_loop at h
    split at h
    · exact (ih _ _ s1 h).trans rfl
    · cases h; rfl

theorem opcodeF_65_loop_frame :
    ∀ fuel (s : Machine) i s1, opcodeF_65_loop s fuel i = some s1 →
      s1.framebuffer = s.framebuffer := by
  intro fuel
  induction fuel with
  | zero =>
    intro s i s1 h
    unfold opcodeF_65_loop at h
    split at h
    · cases h
    · cases h; rfl
  | succ fuel ih =>
    intro s i s1 h
    unfold opcodeF_65_loop at h
    split at h
    · exact (ih _ _ s1 h).trans rfl
    · cases h; rfl

theorem keeps_frame_opcodeF (n : Nat) (f : Machine → Option Machine) (hf : opcodeF n = some f) :
    keeps_frame f := by
  intro s s1 h
  unfold opcodeF at hf
  split at hf <;> cases hf
  · cases h; rfl
  · exact (opcodeF_0A_loop_frame _ _ _ _ h).trans rfl
  · unfold opcodeF_15 chip8_register_write at h
    split at h
    · cases h; rfl
    · split at h <;> (cases h; rfl)
  · unfold opcodeF_18 chip8_register_write at h
    split at h
    · cases h; rfl
    · split at h <;> (cases h; rfl)
  · cases h; rfl
  · cases h; rfl
  · cases h; rfl
  · exact (opcodeF_55_loop_frame _ _ _ _ h).trans rfl
  · exact (opcodeF_65_loop_frame _ _ _ _ h).trans rfl

theorem call_ptr_keeps_frame (e : Option (Machine → Option Machine)) (s s1 : Machine)
    (he : ∀ f, e = some f → keeps_frame f) (h : call_ptr e s = some s1) :
    s1.framebuffer = s.framebuffer := by
  cases e with
  | none => cases h
  | some f => exact he f rfl s s1 h

/-- What one step does to the framebuffer: nothing, `chip8_clear_frame`
(family 0, low nibble 0), or one `chip8_draw_sprite` (family D). -/
theorem exec_frame (s s1 : Machine) (h : chip8_execute_instruction s = some s1) :
    s1.framebuffer = s.framebuffer ∨
    s1.framebuffer = chip8_clear_frame s.framebuffer ∨
    ∃ address x y height c,
      chip8_draw_sprite s.mem s.framebuffer address x y height = some (s1.framebuffer, c) := by
  have hfb : (dispatch_state s).framebuffer = s.framebuffer := rfl
  have hNN : (dispatch_state s).opcode.NN ≤ 0xFF := by rw [dispatch_NN]; omega
  have hN : (dispatch_state s).opcode.N ≤ 0xF := by rw [dispatch_N]; omega
  by_cases h0 : fetch s.mem s.program_counter / 4096 % 16 = 0
  · rw [exec_family_0 s h0] at h
    cases he : opcode0 (fetch s.mem s.program_counter % 16) with
    | none => rw [he] at h; cases h
    | some f =>
      rw [he] at h
      unfold opcode0 at he
      split at he
      · cases he
        cases h
        exact Or.inr (Or.inl rfl)
      · cases he
        exact Or.inl ((keeps_frame_opcode0_EE _ _ h).trans hfb)
      · cases he
  rw [exec_eq_dispatch] at h
  generalize hn : fetch s.mem s.program_counter / 4096 % 16 = n at h h0
  have hlt : n < 16 := by omega
  interval_cases n
  · exact absurd rfl h0
  · exact Or.inl ((keeps_frame_nibble_1 _ _ h).trans hfb)
  · exact Or.inl ((keeps_frame_nibble_2 _ _ h).trans hfb)
  · exact Or.inl ((keeps_frame_nibble_3 _ _ h).trans hfb)
  · exact Or.inl ((keeps_frame_nibble_4 _ _ h).trans hfb)
  · exact Or.inl ((keeps_frame_nibble_5 _ _ h).trans hfb)
  · exact Or.inl ((keeps_frame_nibble_6 _ _ h).trans hfb)
  · exact Or.inl ((keeps_frame_nibble_7 _ _ h).trans hfb)
  · simp only [opcode_ptr, call_ptr, nibble_8, hN, ge_iff_le, Nat.zero_le, true_and,
      if_true] at h
    exact Or.inl ((call_ptr_keeps_frame _ _ _ (keeps_frame_opcode8 _) h).trans hfb)
  · exact Or.inl ((keeps_frame_nibble_9 _ _ h).trans hfb)
  · exact Or.inl ((keeps_frame_nibble_A _ _ h).trans hfb)
  · exact Or.inl ((keeps_frame_nibble_B _ _ h).trans hfb)
  · exact Or.inl ((keeps_frame_nibble_C _ _ h).trans hfb)
  · simp only [opcode_ptr, call_ptr, nibble_D] at h
    split at h
    · rename_i fb c hd
      cases h
      exact Or.inr (Or.inr ⟨_, _, _, _, c, hd⟩)
    · cases h
  · simp only [opcode_ptr, call_ptr, nibble_E, hN, ge_iff_le, Nat.zero_le, true_and,
      if_true] at h
    exact Or.inl ((call_ptr_keeps_frame _ _ _ (keeps_frame_opcodeE _) h).trans hfb)
  · simp only [opcode_ptr, call_ptr, nibble_F, hNN, ge_iff_le, Nat.zero_le, true_and,
      if_true] at h
    exact Or.inl ((call_ptr_keeps_frame _ _ _ (keeps_frame_opcodeF _) h).trans hfb)

theorem binary_clear_frame (fb : Nat → Nat) : binary_frame (chip8_clear_frame fb) := by
  intro q hq
  exact Or.inl (by simp [chip8_clear_frame, hq])

theorem binary_draw_sprite (mem fb fb1 : Nat → Nat) (address x y height c : Nat)
    (hfb : binary_frame fb)
    (hd : chip8_draw_sprite mem fb address x y height = some (fb1, c)) :
    binary_frame fb1 := by
  obtain ⟨fb2, c2, hrun, hpix, _⟩ := chip8_draw_sprite_spec mem fb address x y height
  rw [hd] at hrun
  simp only [Option.some.injEq, Prod.mk.injEq] at hrun
  obtain ⟨hfb2, _⟩ := hrun
  subst hfb2
  intro q hq
  rw [hpix q]
  split
  · rcases hfb q hq with h | h
    · rw [h, Nat.zero_xor]; exact Or.inr rfl
    · rw [h, Nat.xor_self]; exact Or.inl rfl
  · exact hfb q hq

theorem binary_step (s s1 : Machine) (hfb : binary_frame s.framebuffer)
    (h : chip8_execute_instruction s = some s1) : binary_frame s1.framebuffer := by
  rcases exec_frame s s1 h with he | he | ⟨address, x, y, height, c, hd⟩
  · rw [he]; exact hfb
  · rw [he]; exact binary_clear_frame _
  · exact binary_draw_sprite _ _ _ _ _ _ _ _ hfb hd

theorem binary_run : ∀ n (s s1 : Machine), binary_frame s.framebuffer → run n s = some s1 →
    binary_frame s1.framebuffer := by
  intro n
  induction n with
  | zero =>
    intro s s1 hfb h
    cases h
    exact hfb
  | succ n ih =>
    intro s s1 hfb h
    unfold run at h
    split at h
    · rename_i s2 hs2
      exact ih s2 s1 (binary_step s s2 hfb hs2) h
    · cases h

theorem chip8_reset_frame (image : List Nat) (s : Machine) (hsize : image.length ≤ 3584) :
    (chip8_reset (some image) s).framebuffer
      = chip8_clear_frame (chip8_mem_clear s.framebuffer) := by
  have hfit : ¬ image.length > MEMORY_SIZE - 0x200 := by
    show ¬ image.length > 4096 - 0x200
    omega
  simp only [chip8_reset, chip8_mem_reset, chip8_load_rom, hfit, if_false]

/-- C21: every pixel is 0 or `0xFFFFFFFF` after `chip8_clear_frame` (from any
framebuffer `fb0`); `chip8_draw_sprite` returns and keeps that property, for
all arguments; and it holds in every state that `n` calls of
`chip8_execute_instruction` reach from a reset (with an image that fits), for
every `n`. -/
theorem pixels_binary (fb0 fb mem : Nat → Nat) (address x y height : Nat)
    (image : List Nat) (s0 s : Machine) (n : Nat)
    (hfb : binary_frame fb) (hsize : image.length ≤ 3584)
    (hrun : run n (chip8_reset (some image) s0) = some s) :
    binary_frame (chip8_clear_frame fb0) ∧
    (∃ fb1 c, chip8_draw_sprite mem fb address x y height = some (fb1, c) ∧ binary_frame fb1) ∧
    binary_frame (chip8_reset (some image) s0).framebuffer ∧
    binary_frame s.framebuffer := by
  have hreset : binary_frame (chip8_reset (some image) s0).framebuffer := by
    rw [chip8_reset_frame image s0 hsize]
    exact binary_clear_frame _
  refine ⟨binary_clear_frame fb0, ?_, hreset, binary_run n _ s hreset hrun⟩
  obtain ⟨fb1, c, hd, _⟩ := chip8_draw_sprite_spec mem fb address x y height
  exact ⟨fb1, c, hd, binary_draw_sprite _ _ _ _ _ _ _ _ hfb hd⟩

theorem pixels_binary_witness :
    binary_frame (chip8_clear_frame (fun _ => 5)) ∧
    (∃ fb1 c, chip8_draw_sprite (fun _ => 0xF0) (arr_of [(0, 0xffffffff)]) 0x300 0 0 1
        = some (fb1, c) ∧ binary_frame fb1) ∧
    ∃ s, run 1 (chip8_reset (some [0xD0, 0x11, 0x00, 0xE0])
          { machine_of (fun _ => 0) (fun _ => 0) (fun _ => 0) with framebuffer := fun _ => 5 })
        = some s ∧ binary_frame s.framebuffer := by
  have hb : binary_frame (arr_of [(0, 0xffffffff)]) := by
    intro q hq
    by_cases h0 : q = 0
    · subst h0; exact Or.inr rfl
    · refine Or.inl ?_
      have hne : (q == 0) = false := by simpa using h0
      simp [arr_of, List.lookup, hne]
  have hex : ∃ s, run 1 (chip8_reset (some [0xD0, 0x11, 0x00, 0xE0])
        { machine_of (fun _ => 0) (fun _ => 0) (fun _ => 0) with framebuffer := fun _ => 5 })
      = some s := ⟨_, rfl⟩
  obtain ⟨s, hs⟩ := hex
  have h := pixels_binary (fun _ => 5) (arr_of [(0, 0xffffffff)]) (fun _ => 0xF0) 0x300 0 0 1
    [0xD0, 0x11, 0x00, 0xE0]
    { machine_of (fun _ => 0) (fun _ => 0) (fun _ => 0) with framebuffer := fun _ => 5 } s 1
    hb (by decide) hs
  exact ⟨h.1, h.2.1, s, hs, h.2.2.2⟩

/-! ## C22: framebuffer indices and loop bounds -/

/-- A run of the outer loop that returns within a row budget returns the same
result within any larger budget. -/
theorem draw_sprite_rows_budget (mem : Nat → Nat) (address x height : Nat) :
    ∀ fuel i ptr (st r : (Nat → Nat) × Nat),
      draw_sprite_rows mem address x height fuel i ptr st = some r →
      ∀ extra, draw_sprite_rows mem address x height (fuel + extra) i ptr st = some r := by
  intro fuel
  induction fuel with
  | zero =>
    intro i ptr st r h extra
    unfold draw_sprite_rows at h
    split at h
    · cases h
    · rename_i hg
      cases extra with
      | zero => simp [draw_sprite_rows, hg, h]
      | succ e =>
        have e1 : 0 + (e + 1) = e + 1 := by omega
        rw [e1]
        simp only [draw_sprite_rows, hg, if_false]
        exact h
  | succ fuel ih =>
    intro i ptr st r h extra
    have e1 : fuel + 1 + extra = (fuel + extra) + 1 := by omega
    rw [e1]
    unfold draw_sprite_rows at h ⊢
    split at h
    · rename_i hg
      rw [if_pos hg]
      cases hc : draw_sprite_cols x (chip8_mem_read mem (address + i)) ptr 8 0 st with
      | none => simp [hc] at h
      | some st1 =>
        simp only [hc] at h ⊢
        exact ih _ _ _ _ h extra
    · rename_i hg
      rw [if_neg hg]
      exact h

/-- C22: for all arguments `chip8_draw_sprite` returns: every framebuffer
index `ptr + j` it accesses passes the check `ptr + j < 64 * 32` and the inner
loop finishes within its 8 iterations (otherwise the model has no result);
the height the row loop runs to is at most 32, and the row loop as
`chip8_draw_sprite` calls it returns the same result within 32 iterations;
every framebuffer entry that differs afterwards has an index below 2048. -/
theorem draw_sprite_in_bounds (mem fb : Nat → Nat) (address x y height : Nat) :
    ∃ r, chip8_draw_sprite mem fb address x y height = some r ∧
      (if height + (y &&& 0x1F) > 32 then u8 (32 - (y &&& 0x1F)) else height) ≤ 32 ∧
      draw_sprite_rows mem address (x &&& 0x3F)
        (if height + (y &&& 0x1F) > 32 then u8 (32 - (y &&& 0x1F)) else height)
        32 0 (((y &&& 0x1F) <<< 6) + (x &&& 0x3F)) (fb, 0) = some r ∧
      (∀ q, sprite_hit mem address x y height q → q < 64 * 32) ∧
      (∀ q, r.1 q ≠ fb q → q < 64 * 32) := by
  have hh : (if height + y % 32 > 32 then u8 (32 - y % 32) else height)
      = min height (32 - y % 32) := by
    unfold u8
    split <;> omega
  have hp : (y % 32) <<< 6 + x % 64 = (y % 32 + 0) * 64 + x % 64 := by
    rw [Nat.shiftLeft_eq]; omega
  obtain ⟨st1, hrun, hpix⟩ := draw_sprite_rows_spec mem address (x % 64) (y % 32)
    (min height (32 - y % 32)) (by omega) (by omega) 32 0 (fb, 0) (by omega) (by omega)
  have hbig := draw_sprite_rows_budget mem address (x % 64) (min height (32 - y % 32))
    32 0 _ (fb, 0) st1 hrun 224
  have hin : ∀ q, sprite_hit mem address x y height q → q < 64 * 32 := by
    intro q hq
    unfold sprite_hit row_hit at hq
    omega
  refine ⟨st1, by rw [chip8_draw_sprite_eq]; exact hbig, ?_, ?_, hin, ?_⟩
  · simp only [and_0x1F, hh]
    omega
  · simp only [and_0x1F, and_0x3F, hh, hp]
    exact hrun
  · intro q hne
    by_contra hq
    have hno : ¬ sprite_hit mem address x y height q := fun hhit => hq (hin q hhit)
    apply hne
    have := hpix q
    unfold sprite_hit at hno
    rw [if_neg hno] at this
    exact this

theorem draw_sprite_in_bounds_witness :
    ∃ r, chip8_draw_sprite (fun _ => 0xFF) (fun _ => 0) 0xFFFF 255 255 255 = some r ∧
      r.1 (31 * 64 + 63) = 0xffffffff ∧ r.1 (64 * 32) = 0 := by
  obtain ⟨r, h1, _, _, _, h5⟩ :=
    draw_sprite_in_bounds (fun _ => 0xFF) (fun _ => 0) 0xFFFF 255 255 255
  refine ⟨r, h1, ?_, ?_⟩
  · have hd : (chip8_draw_sprite (fun _ => 0xFF) (fun _ => 0) 0xFFFF 255 255 255).map
        (fun t => t.1 (31 * 64 + 63)) = some 0xffffffff := by decide
    rw [h1] at hd
    simpa using hd
  · by_contra hne
    exact absurd (h5 (64 * 32) hne) (by decide)

end Chip8
